import Mathlib

/-!
Verification of the MTIMS inventory core: stock mutation, order creation and
cancellation, manual adjustment, and purchase-order receiving, as implemented
in `server/src/routes/orders.js`, the stock routes (`/api/stock/adjust`),
the purchase-order routes (`/purchase-orders/:id/receive` etc.) and the
product/variant routes, over the Mongoose models `Variant`, `Order`,
`PurchaseOrder`, `StockMovement`.

MongoDB documents are embedded as Lean structures; object ids are `Nat`,
drawn from a fresh-id counter in the database state.  A Mongo
`findOneAndUpdate` with an `$inc` on `stock` is a pure function updating the
first matching document.  A route handler that runs inside a Mongo session
is a pure function returning `Except`: `throw` + `abortTransaction` is the
error case and leaves the caller's state unchanged, `commitTransaction` is
the `ok` case carrying the updated state.
-/

/-- Movement `type` enum of the `StockMovement` schema:
purchase | sale | return | adjustment (`return` is rendered `ret`). -/
inductive MovementType where
  | purchase
  | sale
  | ret
  | adjustment
deriving DecidableEq, Repr

/-- Order `status` enum of the `Order` schema. -/
inductive OrderStatus where
  | pending
  | confirmed
  | processing
  | shipped
  | delivered
  | cancelled
deriving DecidableEq, Repr

/-- PurchaseOrder `status` enum of the `PurchaseOrder` schema
(`partially_received` is rendered `partiallyReceived`). -/
inductive POStatus where
  | draft
  | sent
  | confirmed
  | partiallyReceived
  | received
  | cancelled
deriving DecidableEq, Repr

/-- The `Product` model (only the fields the inventory core reads). -/
structure Product where
  id : Nat
  tenantId : Nat
  name : String
deriving DecidableEq, Repr

/-- The `Variant` model: one sellable stock unit (SKU). -/
structure Variant where
  id : Nat
  tenantId : Nat
  productId : Nat
  sku : String
  price : Int
  costPrice : Int
  stock : Int
  lowStockThreshold : Int
  isActive : Bool
deriving DecidableEq, Repr

/-- The `StockMovement` model: one immutable ledger entry. -/
structure StockMovement where
  tenantId : Nat
  variantId : Nat
  productId : Nat
  type : MovementType
  quantity : Int
  previousStock : Int
  newStock : Int
  reference : String
  referenceId : Option Nat
  notes : String
  createdBy : Nat
deriving DecidableEq, Repr

/-- An `Order` line item subdocument. -/
structure OrderItem where
  variantId : Nat
  productId : Nat
  productName : String
  variantSku : String
  quantity : Int
  unitPrice : Int
  total : Int
deriving DecidableEq, Repr

/-- The `Order` model. -/
structure Order where
  id : Nat
  tenantId : Nat
  orderNumber : String
  status : OrderStatus
  items : List OrderItem
  totalAmount : Int
  customerName : String
  customerEmail : String
  notes : String
  createdBy : Nat
  hasCancelledAt : Bool
  cancelReason : String
deriving DecidableEq, Repr

/-- A `PurchaseOrder` line item subdocument. -/
structure POItem where
  variantId : Nat
  productId : Nat
  quantityOrdered : Int
  quantityReceived : Int
  unitPrice : Int
  actualUnitPrice : Option Int
deriving DecidableEq, Repr

/-- The `PurchaseOrder` model. -/
structure PurchaseOrder where
  id : Nat
  tenantId : Nat
  poNumber : String
  supplierId : Nat
  status : POStatus
  items : List POItem
  totalAmount : Int
  notes : String
  createdBy : Nat
deriving DecidableEq, Repr

/-- The database state: the collections the inventory core touches.
`initials` records each variant's quantity at creation time (never changed
afterwards), used to state the ledger-replay property; `nextId` is the
fresh-object-id source. -/
structure DB where
  products : List Product
  variants : List Variant
  movements : List StockMovement
  orders : List Order
  pos : List PurchaseOrder
  initials : List (Nat × Int)
  nextId : Nat
deriving DecidableEq, Repr

/-- The empty database. -/
def DB.empty : DB := ⟨[], [], [], [], [], [], 0⟩

/-- Business-rule errors raised by the route handlers (`AppError`s),
plus `validationFailed` for the express-validator 400 responses. -/
inductive AppErr where
  | validationFailed
  | variantNotFound (variantId : Nat)
  | insufficientStock (sku : String) (available requested : Int)
  | adjustFailed
  | orderNotFound
  | cannotUpdateCancelled
  | cannotUpdateDelivered
  | alreadyCancelled
  | cannotCancelShippedDelivered
  | poNotFound
  | poNotReceivable
  | cannotTransition (fromStatus toStatus : POStatus)
  | itemNotInPO
  | overReceipt (requested remaining : Int)
  | productNotFound
deriving DecidableEq, Repr

/-- `Variant.findOneAndUpdate(filter, { $inc: { stock: delta } }, { new: true })`:
updates the first document matching `filter`, returning the post-update
document (`new: true`) and the updated collection; `(none, vs)` when no
document matches. -/
def findOneAndUpdateStock (vs : List Variant) (filter : Variant → Bool)
    (delta : Int) : Option Variant × List Variant :=
  match vs with
  | [] => (none, [])
  | v :: rest =>
    if filter v then
      let v' := { v with stock := v.stock + delta }
      (some v', v' :: rest)
    else
      let p := findOneAndUpdateStock rest filter delta
      (p.1, v :: p.2)

/-- Sum of the signed `quantity` deltas of the movements of one variant. -/
def sumFor (vid : Nat) (ms : List StockMovement) : Int :=
  ms.foldr (fun m s => if m.variantId == vid then m.quantity + s else s) 0

/-- Initial quantity recorded for a variant id, if any. -/
def initFor (db : DB) (vid : Nat) : Option Int :=
  (db.initials.find? (fun p => p.1 == vid)).map (fun p => p.2)

/-- `Variant.findOne`-style lookup of a variant by id and tenant. -/
def lookupVariant (db : DB) (vid tid : Nat) : Option Variant :=
  db.variants.find? (fun v => v.id == vid && v.tenantId == tid)

/-- One line of a `POST /api/orders` request body (`items.*`). -/
structure OrderReqItem where
  variantId : Nat
  quantity : Int
deriving DecidableEq, Repr

/-- The atomic conditional deduction of the order-creation path
(the spec's `tryMutate` with a negative delta):
`Variant.findOneAndUpdate({_id, tenantId, stock: {$gte: quantity}}, {$inc: {stock: -quantity}}, {new: true})`. -/
def attemptDeduct (vs : List Variant) (vid tid : Nat) (quantity : Int) :
    Option Variant × List Variant :=
  findOneAndUpdateStock vs
    (fun v => v.id == vid && v.tenantId == tid && quantity ≤ v.stock)
    (-quantity)

/-- The per-line loop body of `POST /api/orders`: for each requested line,
the guarded atomic deduction
`Variant.findOneAndUpdate({_id, tenantId, stock: {$gte: quantity}}, {$inc: {stock: -quantity}}, {new: true, session})`,
then on a miss the unguarded re-read distinguishing "variant not found"
from "insufficient stock", else the order line and the (pre-reference)
sale movement.  Threads the session's view of the variants collection. -/
def processOrderItems (tid uid : Nat) (products : List Product) :
    List OrderReqItem → List Variant →
    Except AppErr (List Variant × List OrderItem × List StockMovement)
  | [], vs => .ok (vs, [], [])
  | item :: rest, vs =>
    let r := attemptDeduct vs item.variantId tid item.quantity
    match r.1 with
    | none =>
      match vs.find? (fun v => v.id == item.variantId && v.tenantId == tid) with
      | none => .error (.variantNotFound item.variantId)
      | some ex => .error (.insufficientStock ex.sku ex.stock item.quantity)
    | some variant =>
      let productName :=
        match products.find? (fun p => p.id == variant.productId) with
        | some product => product.name
        | none => "Unknown"
      let oi : OrderItem :=
        { variantId := variant.id
          productId := variant.productId
          productName := productName
          variantSku := variant.sku
          quantity := item.quantity
          unitPrice := variant.price
          total := variant.price * item.quantity }
      let m : StockMovement :=
        { tenantId := tid
          variantId := variant.id
          productId := variant.productId
          type := .sale
          quantity := -item.quantity
          previousStock := variant.stock + item.quantity
          newStock := variant.stock
          reference := ""
          referenceId := none
          notes := ""
          createdBy := uid }
      match processOrderItems tid uid products rest r.2 with
      | .error e => .error e
      | .ok (vs', ois, ms) => .ok (vs', oi :: ois, m :: ms)

/-- `POST /api/orders`: express-validator checks (`items` a non-empty array,
every `quantity` an integer ≥ 1), then the transactional loop over the
lines, the `Order.create` and the `StockMovement.create` with the order
reference.  An error aborts the transaction, so the error result carries
no state change.  `orderNumber` stands for `generateOrderNumber('ORD')`. -/
def createOrder (db : DB) (tid uid : Nat) (items : List OrderReqItem)
    (orderNumber customerName customerEmail notes : String) :
    Except AppErr (DB × Order) :=
  if items.isEmpty || items.any (fun i => i.quantity < 1) then
    .error .validationFailed
  else
    match processOrderItems tid uid db.products items db.variants with
    | .error e => .error e
    | .ok (vs', orderItems, stockMovements) =>
      let totalAmount := orderItems.foldl (fun sum i => sum + i.total) 0
      let order : Order :=
        { id := db.nextId
          tenantId := tid
          orderNumber := orderNumber
          status := .pending
          items := orderItems
          totalAmount := totalAmount
          customerName := customerName
          customerEmail := customerEmail
          notes := notes
          createdBy := uid
          hasCancelledAt := false
          cancelReason := "" }
      let movements := stockMovements.map (fun m =>
        { m with reference := "Order " ++ orderNumber,
                 referenceId := some order.id })
      .ok ({ db with
              variants := vs'
              orders := db.orders ++ [order]
              movements := db.movements ++ movements
              nextId := db.nextId + 1 }, order)

/-- `PUT /api/orders/:id/status`: body validator `status ∈ {confirmed,
processing, shipped, delivered}`, tenant-scoped lookup, terminal-state
guards on `cancelled` and `delivered`, then the unconditional assignment
`order.status = req.body.status` — no successor check. -/
def updateOrderStatus (db : DB) (tid oid : Nat) (newStatus : OrderStatus) :
    Except AppErr DB :=
  if !(newStatus == .confirmed || newStatus == .processing ||
       newStatus == .shipped || newStatus == .delivered) then
    .error .validationFailed
  else
    match db.orders.find? (fun o => o.id == oid && o.tenantId == tid) with
    | none => .error .orderNotFound
    | some o =>
      if o.status = .cancelled then .error .cannotUpdateCancelled
      else if o.status = .delivered then .error .cannotUpdateDelivered
      else
        .ok { db with
          orders := db.orders.map (fun x =>
            if x.id == oid && x.tenantId == tid then
              { x with status := newStatus }
            else x) }

/-- The stock-restoration loop of `POST /api/orders/:id/cancel`: for every
line item an unguarded `$inc` of `stock` by the line quantity scoped by
`{_id, tenantId}`; a return movement is pushed only `if (variant)` — a
vanished variant is skipped silently. -/
def cancelRestoreItems (tid uid : Nat) (orderNumber : String) (oid : Nat)
    (reason : String) :
    List OrderItem → List Variant → List Variant × List StockMovement
  | [], vs => (vs, [])
  | item :: rest, vs =>
    let r := findOneAndUpdateStock vs
      (fun v => v.id == item.variantId && v.tenantId == tid) item.quantity
    let p := cancelRestoreItems tid uid orderNumber oid reason rest r.2
    match r.1 with
    | none => p
    | some variant =>
      let m : StockMovement :=
        { tenantId := tid
          variantId := variant.id
          productId := item.productId
          type := .ret
          quantity := item.quantity
          previousStock := variant.stock - item.quantity
          newStock := variant.stock
          reference := "Cancelled Order " ++ orderNumber
          referenceId := some oid
          notes := if reason == "" then "Order cancelled" else reason
          createdBy := uid }
      (p.1, m :: p.2)

/-- `POST /api/orders/:id/cancel`: tenant-scoped lookup, guards on
`cancelled` and `shipped`/`delivered`, then within one transaction the
stock restoration loop, the `StockMovement.create`, and the status/
timestamp/reason update on the order. -/
def cancelOrder (db : DB) (tid uid oid : Nat) (reason : String) :
    Except AppErr DB :=
  match db.orders.find? (fun o => o.id == oid && o.tenantId == tid) with
  | none => .error .orderNotFound
  | some o =>
    if o.status = .cancelled then .error .alreadyCancelled
    else if o.status = .shipped ∨ o.status = .delivered then
      .error .cannotCancelShippedDelivered
    else
      let p := cancelRestoreItems tid uid o.orderNumber o.id reason
        o.items db.variants
      .ok { db with
        variants := p.1
        movements := db.movements ++ p.2
        orders := db.orders.map (fun x =>
          if x.id == oid && x.tenantId == tid then
            { x with status := .cancelled, hasCancelledAt := true,
                     cancelReason := reason }
          else x) }

/-- `POST /api/stock/adjust`: body validators (`quantity` any integer,
`type ∈ {adjustment, return}`), then the guarded atomic update
`Variant.findOneAndUpdate({_id, tenantId, stock: {$gte: quantity < 0 ? |quantity| : 0}}, {$inc: {stock: quantity}}, {new: true})`
and one `StockMovement.create`. -/
def adjustStock (db : DB) (tid uid vid : Nat) (quantity : Int)
    (type : MovementType) (notes : String) :
    Except AppErr (DB × Variant × StockMovement) :=
  if !(type == .adjustment || type == .ret) then .error .validationFailed
  else
    let r := findOneAndUpdateStock db.variants
      (fun v => v.id == vid && v.tenantId == tid &&
        (if quantity < 0 then -quantity else 0) ≤ v.stock)
      quantity
    match r.1 with
    | none => .error .adjustFailed
    | some variant =>
      let movement : StockMovement :=
        { tenantId := tid
          variantId := variant.id
          productId := variant.productId
          type := type
          quantity := quantity
          previousStock := variant.stock - quantity
          newStock := variant.stock
          reference := ""
          referenceId := none
          notes := notes
          createdBy := uid }
      .ok ({ db with
              variants := r.2
              movements := db.movements ++ [movement] }, variant, movement)

/-- One line of a `POST /purchase-orders` request body (`items.*`). -/
structure POReqItem where
  variantId : Nat
  productId : Nat
  quantityOrdered : Int
  unitPrice : Int
deriving DecidableEq, Repr

/-- One line of a `POST /purchase-orders/:id/receive` request body. -/
structure ReceiveItem where
  variantId : Nat
  quantityReceived : Int
  actualUnitPrice : Option Int
deriving DecidableEq, Repr

/-- The `pre('save')` hook of the `PurchaseOrder` schema:
`totalAmount = Σ quantityOrdered * unitPrice`. -/
def poTotal (items : List POItem) : Int :=
  items.foldl (fun sum item => sum + item.quantityOrdered * item.unitPrice) 0

/-- `POST /purchase-orders`: body validators (`items` non-empty, every
`quantityOrdered ≥ 1`, every `unitPrice ≥ 0`), then `PurchaseOrder.create`
with status `draft`, `quantityReceived = 0` per line and the pre-save
total.  `poNumber` stands for `generateOrderNumber('PO')`. -/
def createPurchaseOrder (db : DB) (tid uid supplierId : Nat)
    (items : List POReqItem) (poNumber notes : String) :
    Except AppErr (DB × PurchaseOrder) :=
  if items.isEmpty ||
     items.any (fun i => i.quantityOrdered < 1 || i.unitPrice < 0) then
    .error .validationFailed
  else
    let poItems : List POItem := items.map (fun i =>
      { variantId := i.variantId
        productId := i.productId
        quantityOrdered := i.quantityOrdered
        quantityReceived := 0
        unitPrice := i.unitPrice
        actualUnitPrice := none })
    let po : PurchaseOrder :=
      { id := db.nextId
        tenantId := tid
        poNumber := poNumber
        supplierId := supplierId
        status := .draft
        items := poItems
        totalAmount := poTotal poItems
        notes := notes
        createdBy := uid }
    .ok ({ db with pos := db.pos ++ [po], nextId := db.nextId + 1 }, po)

/-- The `validTransitions` table of `PUT /purchase-orders/:id/status`. -/
def validTransitions : POStatus → List POStatus
  | .draft => [.sent, .cancelled]
  | .sent => [.confirmed, .cancelled]
  | .confirmed => [.cancelled]
  | .partiallyReceived => [.cancelled]
  | _ => []

/-- `PUT /purchase-orders/:id/status`: body validator
`status ∈ {sent, confirmed, cancelled}`, tenant-scoped lookup, the
transition table, then assignment and the pre-save total recompute. -/
def updatePOStatus (db : DB) (tid poid : Nat) (newStatus : POStatus) :
    Except AppErr DB :=
  if !(newStatus == .sent || newStatus == .confirmed ||
       newStatus == .cancelled) then
    .error .validationFailed
  else
    match db.pos.find? (fun p => p.id == poid && p.tenantId == tid) with
    | none => .error .poNotFound
    | some po =>
      if newStatus ∈ validTransitions po.status then
        .ok { db with
          pos := db.pos.map (fun p =>
            if p.id == poid && p.tenantId == tid then
              { p with status := newStatus,
                       totalAmount := poTotal p.items }
            else p) }
      else .error (.cannotTransition po.status newStatus)

/-- Mutation of the subdocument returned by `po.items.find(...)`:
`poItem.quantityReceived += q` and the conditional `actualUnitPrice`
assignment apply to the first matching line only. -/
def updateFirstPOItem (vid : Nat) (q : Int) (aup : Option Int) :
    List POItem → List POItem
  | [] => []
  | i :: rest =>
    if i.variantId == vid then
      { i with quantityReceived := i.quantityReceived + q,
               actualUnitPrice :=
                 match aup with
                 | some p => some p
                 | none => i.actualUnitPrice } :: rest
    else i :: updateFirstPOItem vid q aup rest

/-- The per-line loop of `POST /purchase-orders/:id/receive`: locate the PO
line by `variantId` (reject when absent), check the received quantity
against `remaining = quantityOrdered - quantityReceived` (reject the
overage), increment the line, unguarded-`$inc` the variant's stock, and
push a purchase movement only `if (variant)`. -/
def receiveItemsLoop (tid uid : Nat) (poNumber : String) (poid : Nat) :
    List ReceiveItem → List POItem → List Variant →
    Except AppErr (List POItem × List Variant × List StockMovement)
  | [], items, vs => .ok (items, vs, [])
  | received :: rest, items, vs =>
    match items.find? (fun i => i.variantId == received.variantId) with
    | none => .error .itemNotInPO
    | some poItem =>
      let remainingToReceive := poItem.quantityOrdered - poItem.quantityReceived
      if remainingToReceive < received.quantityReceived then
        .error (.overReceipt received.quantityReceived remainingToReceive)
      else
        let items' := updateFirstPOItem received.variantId
          received.quantityReceived received.actualUnitPrice items
        let r := findOneAndUpdateStock vs
          (fun v => v.id == received.variantId && v.tenantId == tid)
          received.quantityReceived
        match receiveItemsLoop tid uid poNumber poid rest items' r.2 with
        | .error e => .error e
        | .ok (items'', vs', ms) =>
          match r.1 with
          | none => .ok (items'', vs', ms)
          | some variant =>
            let m : StockMovement :=
              { tenantId := tid
                variantId := variant.id
                productId := variant.productId
                type := .purchase
                quantity := received.quantityReceived
                previousStock := variant.stock - received.quantityReceived
                newStock := variant.stock
                reference := "PO " ++ poNumber
                referenceId := some poid
                notes := ""
                createdBy := uid }
            .ok (items'', vs', m :: ms)

/-- `POST /purchase-orders/:id/receive`: body validators (`items`
non-empty, every `quantityReceived ≥ 1`, `actualUnitPrice ≥ 0` when
present), the lookup scoped by tenant and
`status ∈ {confirmed, partially_received}`, the per-line loop within one
transaction, then the status recompute
(`received` iff every line has `quantityReceived ≥ quantityOrdered`,
else `partially_received`), `po.save` (pre-save total) and
`StockMovement.create`. -/
def receivePurchaseOrder (db : DB) (tid uid poid : Nat)
    (receivedItems : List ReceiveItem) : Except AppErr DB :=
  if receivedItems.isEmpty ||
     receivedItems.any (fun r => r.quantityReceived < 1 ||
       (match r.actualUnitPrice with | some p => p < 0 | none => false)) then
    .error .validationFailed
  else
    match db.pos.find? (fun p => p.id == poid && p.tenantId == tid &&
        (p.status == .confirmed || p.status == .partiallyReceived)) with
    | none => .error .poNotReceivable
    | some po =>
      match receiveItemsLoop tid uid po.poNumber po.id
          receivedItems po.items db.variants with
      | .error e => .error e
      | .ok (items', vs', ms) =>
        let allReceived := items'.all (fun item =>
          item.quantityOrdered ≤ item.quantityReceived)
        let newStatus : POStatus :=
          if allReceived then .received else .partiallyReceived
        .ok { db with
          variants := vs'
          movements := db.movements ++ ms
          pos := db.pos.map (fun p =>
            if p.id == poid && p.tenantId == tid then
              { p with items := items', status := newStatus,
                       totalAmount := poTotal items' }
            else p) }

/-- `POST /api/products` (only what the core needs: a product document the
variants can reference). -/
def createProduct (db : DB) (tid : Nat) (name : String) : Except AppErr (DB × Product) :=
  let product : Product := { id := db.nextId, tenantId := tid, name := name }
  .ok ({ db with products := db.products ++ [product],
                 nextId := db.nextId + 1 }, product)

/-- `POST /products/:id/variants`: product lookup scoped by tenant, then
`Variant.create` (schema validators: `price`, `costPrice`, `stock`,
`lowStockThreshold` all ≥ 0).  Also records the created variant's initial
quantity for the ledger-replay statement. -/
def createVariant (db : DB) (tid productId : Nat) (sku : String)
    (price costPrice stock lowStockThreshold : Int) :
    Except AppErr (DB × Variant) :=
  if price < 0 || costPrice < 0 || stock < 0 || lowStockThreshold < 0 then
    .error .validationFailed
  else
    match db.products.find? (fun p => p.id == productId && p.tenantId == tid) with
    | none => .error .productNotFound
    | some _ =>
      let v : Variant :=
        { id := db.nextId
          tenantId := tid
          productId := productId
          sku := sku
          price := price
          costPrice := costPrice
          stock := stock
          lowStockThreshold := lowStockThreshold
          isActive := true }
      .ok ({ db with
              variants := db.variants ++ [v]
              initials := db.initials ++ [(v.id, stock)]
              nextId := db.nextId + 1 }, v)

/-- `Variant.findOneAndDelete({_id, tenantId})`: removes the first match. -/
def removeFirstVariant (filter : Variant → Bool) :
    List Variant → List Variant
  | [] => []
  | v :: rest =>
    if filter v then rest else v :: removeFirstVariant filter rest

/-- `DELETE /products/variants/:id`: tenant-scoped `findOneAndDelete`,
404 when no match — no check whatsoever against orders or movements that
reference the variant. -/
def deleteVariant (db : DB) (tid vid : Nat) : Except AppErr DB :=
  match db.variants.find? (fun v => v.id == vid && v.tenantId == tid) with
  | none => .error (.variantNotFound vid)
  | some _ =>
    .ok { db with
      variants := removeFirstVariant
        (fun v => v.id == vid && v.tenantId == tid) db.variants }

/-- `Product.findOneAndDelete({_id, tenantId})`: removes the first match. -/
def removeFirstProduct (filter : Product → Bool) :
    List Product → List Product
  | [] => []
  | p :: rest =>
    if filter p then rest else p :: removeFirstProduct filter rest

/-- `DELETE /products/:id`: `Product.findOneAndDelete({_id, tenantId})`
then `Variant.deleteMany({tenantId, productId})` — again with no
reference check. -/
def deleteProduct (db : DB) (tid pid : Nat) : Except AppErr DB :=
  match db.products.find? (fun p => p.id == pid && p.tenantId == tid) with
  | none => .error .productNotFound
  | some _ =>
    .ok { db with
      products := removeFirstProduct
        (fun p => p.id == pid && p.tenantId == tid) db.products
      variants := db.variants.filter
        (fun v => !(v.tenantId == tid && v.productId == pid)) }

/-- One inbound operation of the inventory core (the route handlers that
read or write the collections above). -/
inductive Op where
  | createProduct (tid : Nat) (name : String)
  | createVariant (tid productId : Nat) (sku : String)
      (price costPrice stock lowStockThreshold : Int)
  | deleteVariant (tid vid : Nat)
  | deleteProduct (tid pid : Nat)
  | createOrder (tid uid : Nat) (items : List OrderReqItem)
      (orderNumber customerName customerEmail notes : String)
  | updateOrderStatus (tid oid : Nat) (newStatus : OrderStatus)
  | cancelOrder (tid uid oid : Nat) (reason : String)
  | adjustStock (tid uid vid : Nat) (quantity : Int)
      (type : MovementType) (notes : String)
  | createPurchaseOrder (tid uid supplierId : Nat)
      (items : List POReqItem) (poNumber notes : String)
  | updatePOStatus (tid poid : Nat) (newStatus : POStatus)
  | receivePurchaseOrder (tid uid poid : Nat)
      (receivedItems : List ReceiveItem)
deriving Repr

/-- Runs one operation as a whole HTTP request: a thrown error aborts the
transaction, so the state is returned unchanged. -/
def applyOp (db : DB) : Op → DB
  | .createProduct tid name =>
    match createProduct db tid name with
    | .ok (db', _) => db'
    | .error _ => db
  | .createVariant tid productId sku price costPrice stock lowStockThreshold =>
    match createVariant db tid productId sku price costPrice stock
        lowStockThreshold with
    | .ok (db', _) => db'
    | .error _ => db
  | .deleteVariant tid vid =>
    match deleteVariant db tid vid with
    | .ok db' => db'
    | .error _ => db
  | .deleteProduct tid pid =>
    match deleteProduct db tid pid with
    | .ok db' => db'
    | .error _ => db
  | .createOrder tid uid items orderNumber customerName customerEmail notes =>
    match createOrder db tid uid items orderNumber customerName
        customerEmail notes with
    | .ok (db', _) => db'
    | .error _ => db
  | .updateOrderStatus tid oid newStatus =>
    match updateOrderStatus db tid oid newStatus with
    | .ok db' => db'
    | .error _ => db
  | .cancelOrder tid uid oid reason =>
    match cancelOrder db tid uid oid reason with
    | .ok db' => db'
    | .error _ => db
  | .adjustStock tid uid vid quantity type notes =>
    match adjustStock db tid uid vid quantity type notes with
    | .ok (db', _, _) => db'
    | .error _ => db
  | .createPurchaseOrder tid uid supplierId items poNumber notes =>
    match createPurchaseOrder db tid uid supplierId items poNumber notes with
    | .ok (db', _) => db'
    | .error _ => db
  | .updatePOStatus tid poid newStatus =>
    match updatePOStatus db tid poid newStatus with
    | .ok db' => db'
    | .error _ => db
  | .receivePurchaseOrder tid uid poid receivedItems =>
    match receivePurchaseOrder db tid uid poid receivedItems with
    | .ok db' => db'
    | .error _ => db

/-- The state reached from the empty database by a sequence of requests. -/
def runOps (ops : List Op) : DB :=
  ops.foldl applyOp DB.empty

/-- Well-formedness of a database state.  All of it is established for
every reachable state (`wf_runOps`): fresh ids are above every stored id
and stored ids are distinct; stock is never negative; order lines carry
positive quantities; PO lines never have `quantityReceived` above
`quantityOrdered`; every movement satisfies
`newStock = previousStock + quantity`; and replaying the ledger from each
variant's recorded initial quantity reproduces its current stock. -/
def WF (db : DB) : Prop :=
  (db.variants.map Variant.id).Nodup ∧
  (∀ v ∈ db.variants, v.id < db.nextId) ∧
  (∀ o ∈ db.orders, o.id < db.nextId) ∧
  (∀ p ∈ db.pos, p.id < db.nextId) ∧
  (∀ q ∈ db.products, q.id < db.nextId) ∧
  (∀ q ∈ db.initials, q.1 < db.nextId) ∧
  (∀ m ∈ db.movements, m.variantId < db.nextId) ∧
  (∀ v ∈ db.variants, 0 ≤ v.stock) ∧
  (∀ o ∈ db.orders, ∀ item ∈ o.items, 1 ≤ item.quantity) ∧
  (∀ p ∈ db.pos, ∀ item ∈ p.items,
    0 ≤ item.quantityReceived ∧
    item.quantityReceived ≤ item.quantityOrdered) ∧
  (∀ m ∈ db.movements, m.newStock = m.previousStock + m.quantity) ∧
  (∀ v ∈ db.variants,
    initFor db v.id = some (v.stock - sumFor v.id db.movements))

instance (db : DB) : Decidable (WF db) := by
  unfold WF; infer_instance

/-- The `$inc: { stock: d }` document update. -/
def updStock (d : Int) (v : Variant) : Variant :=
  { v with stock := v.stock + d }

/-- Applies `g` to the first element satisfying `f` (the collection shape
that `findOneAndUpdateStock` leaves behind). -/
def updateFirstWhere (f : Variant → Bool) (g : Variant → Variant) :
    List Variant → List Variant
  | [] => []
  | v :: rest =>
    if f v then g v :: rest else v :: updateFirstWhere f g rest

/-- N concurrent order-creation deductions on one unit, serialized by the
storage engine in arrival order (§5 of the spec: per-document atomic
updates are serialized; this fold is that serialization).  Returns the
per-attempt applied/rejected flags and the final collection. -/
def runDeductions (vid tid : Nat) :
    List Int → List Variant → List Bool × List Variant
  | [], vs => ([], vs)
  | amt :: rest, vs =>
    let r := attemptDeduct vs vid tid amt
    let p := runDeductions vid tid rest r.2
    (r.1.isSome :: p.1, p.2)

/-- True when the `true` flags form a prefix of the flag list: no attempt
is applied after a rejected one. -/
def flagsDownward : List Bool → Bool
  | [] => true
  | true :: rest => flagsDownward rest
  | false :: rest => rest.all (fun c => c == false)

/-- Total quantity an order holds against one variant (an order may in
principle list the same variant on several lines). -/
def itemsSum (vid : Nat) (items : List OrderItem) : Int :=
  items.foldr
    (fun item s => if item.variantId == vid then item.quantity + s else s) 0

/-- Sum of the signed quantities in a list of (variantId, quantity) pairs
for one variant id (the shadow of `sumFor` on projected movements). -/
def pairSum (vid : Nat) (l : List (Nat × Int)) : Int :=
  l.foldr (fun p s => if p.1 == vid then p.2 + s else s) 0

/-- How a variants collection evolves under a batch of recorded movements:
every variant's stock moves by the sum of its movement deltas and nothing
else changes (this is what each transactional loop is proved to do). -/
def StockEvolve (ms : List StockMovement) (vs vs' : List Variant) : Prop :=
  vs' = vs.map (fun v => updStock (sumFor v.id ms) v)

/-! ### Basic lemmas about the atomic update primitive -/

theorem updStock_zero (v : Variant) : updStock 0 v = v := by
  simp [updStock]

theorem updStock_id (d : Int) (v : Variant) : (updStock d v).id = v.id := rfl

theorem fous_fst (vs : List Variant) (f : Variant → Bool) (d : Int) :
    (findOneAndUpdateStock vs f d).1 = (vs.find? f).map (updStock d) := by
  induction vs with
  | nil => rfl
  | cons v rest ih =>
    by_cases hf : f v = true
    · rw [List.find?_cons_of_pos _ hf]
      simp [findOneAndUpdateStock, hf, updStock]
    · rw [List.find?_cons_of_neg _ hf]
      simp only [findOneAndUpdateStock, hf]
      simpa using ih

theorem fous_of_find?_none {vs : List Variant} {f : Variant → Bool}
    (h : vs.find? f = none) (d : Int) :
    findOneAndUpdateStock vs f d = (none, vs) := by
  induction vs with
  | nil => rfl
  | cons v rest ih =>
    by_cases hf : f v = true
    · rw [List.find?_cons_of_pos _ hf] at h; cases h
    · rw [List.find?_cons_of_neg _ hf] at h
      simp only [findOneAndUpdateStock, hf]
      simp [ih h]

theorem fous_decomp {vs : List Variant} {f : Variant → Bool} {v₀ : Variant}
    (h : vs.find? f = some v₀) (d : Int) :
    ∃ l1 l2, vs = l1 ++ v₀ :: l2 ∧ (∀ x ∈ l1, f x = false) ∧
      findOneAndUpdateStock vs f d =
        (some (updStock d v₀), l1 ++ updStock d v₀ :: l2) := by
  induction vs with
  | nil => cases h
  | cons v rest ih =>
    by_cases hf : f v = true
    · rw [List.find?_cons_of_pos _ hf] at h
      cases h
      exact ⟨[], rest, rfl, by simp,
        by simp [findOneAndUpdateStock, hf, updStock]⟩
    · rw [List.find?_cons_of_neg _ hf] at h
      obtain ⟨l1, l2, he, hl1, hfu⟩ := ih h
      refine ⟨v :: l1, l2, by rw [he]; rfl, ?_, ?_⟩
      · intro x hx
        rcases List.mem_cons.mp hx with rfl | hx
        · simpa using hf
        · exact hl1 x hx
      · simp only [findOneAndUpdateStock, hf]
        simp [hfu]

/-! ### Lemmas about `sumFor` -/

theorem sumFor_nil (vid : Nat) : sumFor vid [] = 0 := rfl

theorem sumFor_cons (vid : Nat) (m : StockMovement) (ms : List StockMovement) :
    sumFor vid (m :: ms) =
      if m.variantId == vid then m.quantity + sumFor vid ms
      else sumFor vid ms := rfl

theorem sumFor_append (vid : Nat) (ms1 ms2 : List StockMovement) :
    sumFor vid (ms1 ++ ms2) = sumFor vid ms1 + sumFor vid ms2 := by
  induction ms1 with
  | nil => simp [sumFor_nil, sumFor]
  | cons m ms ih =>
    simp only [List.cons_append, sumFor_cons, ih]
    split <;> ring

theorem sumFor_eq_zero {vid : Nat} {ms : List StockMovement}
    (h : ∀ m ∈ ms, m.variantId ≠ vid) : sumFor vid ms = 0 := by
  induction ms with
  | nil => rfl
  | cons m ms ih =>
    rw [sumFor_cons]
    have hm : (m.variantId == vid) = false := by
      simpa using h m (List.mem_cons_self m ms)
    simp [hm, ih (fun x hx => h x (List.mem_cons_of_mem m hx))]

theorem sumFor_single (vid : Nat) (m : StockMovement) (h : m.variantId = vid) :
    sumFor vid [m] = m.quantity := by
  simp [sumFor_cons, sumFor_nil, h]

/-! ### Lemmas about `StockEvolve` -/

theorem stockEvolve_nil (vs : List Variant) : StockEvolve [] vs vs := by
  simp [StockEvolve, sumFor_nil, updStock_zero]

theorem stockEvolve_trans {ms1 ms2 : List StockMovement}
    {vs vs' vs'' : List Variant}
    (h1 : StockEvolve ms1 vs vs') (h2 : StockEvolve ms2 vs' vs'') :
    StockEvolve (ms1 ++ ms2) vs vs'' := by
  subst h1; subst h2
  rw [StockEvolve, List.map_map]
  apply List.map_congr_left
  intro v _
  simp only [Function.comp, updStock, sumFor_append]
  congr 1
  ring

theorem stockEvolve_ids {ms : List StockMovement} {vs vs' : List Variant}
    (h : StockEvolve ms vs vs') : vs'.map Variant.id = vs.map Variant.id := by
  subst h
  rw [List.map_map]
  rfl

theorem stockEvolve_mem {ms : List StockMovement} {vs vs' : List Variant}
    (h : StockEvolve ms vs vs') {v' : Variant} (hv : v' ∈ vs') :
    ∃ v ∈ vs, v' = updStock (sumFor v.id ms) v := by
  subst h
  obtain ⟨w, hw, rfl⟩ := List.mem_map.mp hv
  exact ⟨w, hw, rfl⟩

theorem stockEvolve_mem_fwd {ms : List StockMovement} {vs vs' : List Variant}
    (h : StockEvolve ms vs vs') {v : Variant} (hv : v ∈ vs) :
    updStock (sumFor v.id ms) v ∈ vs' := by
  subst h
  exact List.mem_map_of_mem _ hv

theorem stockEvolve_fous {vs : List Variant} {f : Variant → Bool} {vid : Nat}
    (hnd : (vs.map Variant.id).Nodup)
    (hf : ∀ v, f v = true → v.id = vid)
    {d : Int} {v' : Variant}
    (h : (findOneAndUpdateStock vs f d).1 = some v')
    (m : StockMovement) (hm : m.variantId = vid) (hq : m.quantity = d) :
    StockEvolve [m] vs (findOneAndUpdateStock vs f d).2 := by
  rw [fous_fst] at h
  cases hfind : vs.find? f with
  | none => rw [hfind] at h; cases h
  | some v₀ =>
    obtain ⟨l1, l2, he, hl1, hfu⟩ := fous_decomp hfind d
    have hv₀ : v₀.id = vid := hf v₀ (List.find?_some hfind)
    rw [hfu]
    dsimp only
    subst he
    have hig := hnd
    rw [List.map_append, List.map_cons, List.nodup_middle,
      List.nodup_cons, List.mem_append] at hig
    have hne1 : ∀ x ∈ l1, x.id ≠ vid := by
      intro x hx hxe
      apply hig.1
      left
      have hve : v₀.id = x.id := by rw [hv₀, hxe]
      rw [hve]
      exact List.mem_map_of_mem _ hx
    have hne2 : ∀ x ∈ l2, x.id ≠ vid := by
      intro x hx hxe
      apply hig.1
      right
      have hve : v₀.id = x.id := by rw [hv₀, hxe]
      rw [hve]
      exact List.mem_map_of_mem _ hx
    have hfix : ∀ (l : List Variant), (∀ x ∈ l, x.id ≠ vid) →
        l.map (fun v => updStock (sumFor v.id [m]) v) = l := by
      intro l hl
      have : ∀ x ∈ l, updStock (sumFor x.id [m]) x = x := by
        intro x hx
        rw [sumFor_eq_zero, updStock_zero]
        intro m' hm'
        rw [List.mem_singleton] at hm'
        subst hm'
        rw [hm]
        exact fun hcon => hl x hx hcon.symm
      rw [List.map_congr_left this]
      exact List.map_id' l
    rw [StockEvolve, List.map_append, List.map_cons, hfix l1 hne1,
      hfix l2 hne2, sumFor_single _ _ (by rw [hm, hv₀]), hq]

theorem fous_snd_ids (vs : List Variant) (f : Variant → Bool) (d : Int) :
    ((findOneAndUpdateStock vs f d).2).map Variant.id = vs.map Variant.id := by
  induction vs with
  | nil => rfl
  | cons v rest ih =>
    by_cases hf : f v = true
    · simp [findOneAndUpdateStock, hf, updStock]
    · simp only [findOneAndUpdateStock, hf]
      simp [ih]

theorem fous_snd_mem {vs : List Variant} {f : Variant → Bool} {d : Int}
    {w : Variant} (hw : w ∈ (findOneAndUpdateStock vs f d).2) :
    w ∈ vs ∨ ∃ v ∈ vs, f v = true ∧ w = updStock d v := by
  induction vs with
  | nil => simp [findOneAndUpdateStock] at hw
  | cons v rest ih =>
    by_cases hf : f v = true
    · simp only [findOneAndUpdateStock, hf, if_true] at hw
      rcases List.mem_cons.mp hw with rfl | hw
      · exact Or.inr ⟨v, List.mem_cons_self v rest, hf, rfl⟩
      · exact Or.inl (List.mem_cons_of_mem _ hw)
    · simp only [findOneAndUpdateStock, hf] at hw
      rcases List.mem_cons.mp (by simpa using hw) with rfl | hw'
      · exact Or.inl (List.mem_cons_self _ _)
      · rcases ih hw' with hmem | ⟨v', hv', hfv', rfl⟩
        · exact Or.inl (List.mem_cons_of_mem _ hmem)
        · exact Or.inr ⟨v', List.mem_cons_of_mem _ hv', hfv', rfl⟩

/-- Under distinct ids, the guarded filter `{_id, tenantId, stock: {$gte: b}}`
finds exactly the `{_id, tenantId}` match when that match passes the
guard, and nothing otherwise. -/
theorem find?_guard_eq {vs : List Variant} (hnd : (vs.map Variant.id).Nodup)
    (vid tid : Nat) (g : Variant → Bool) :
    vs.find? (fun v => v.id == vid && v.tenantId == tid && g v) =
      match vs.find? (fun v => v.id == vid && v.tenantId == tid) with
      | some v => if g v then some v else none
      | none => none := by
  induction vs with
  | nil => rfl
  | cons v rest ih =>
    rw [List.map_cons, List.nodup_cons] at hnd
    by_cases hid : v.id = vid
    · by_cases ht : v.tenantId = tid
      · have hR : List.find? (fun v => v.id == vid && v.tenantId == tid)
            (v :: rest) = some v :=
          List.find?_cons_of_pos _ (by simp [hid, ht])
        by_cases hg : g v = true
        · have hL : List.find?
              (fun v => v.id == vid && v.tenantId == tid && g v)
              (v :: rest) = some v :=
            List.find?_cons_of_pos _ (by simp [hid, ht, hg])
          rw [hL, hR]
          simp [hg]
        · have hL : List.find?
              (fun v => v.id == vid && v.tenantId == tid && g v)
              (v :: rest) = none := by
            rw [List.find?_cons_of_neg _ (by simp [hg]), List.find?_eq_none]
            intro x hx hfx
            apply hnd.1
            have hxid : x.id = vid := by
              simp only [Bool.and_eq_true, beq_iff_eq] at hfx
              exact hfx.1.1
            rw [hid, ← hxid]
            exact List.mem_map_of_mem _ hx
          rw [hL, hR]
          simp [hg]
      · have hR : List.find? (fun v => v.id == vid && v.tenantId == tid)
            (v :: rest) = List.find?
              (fun v => v.id == vid && v.tenantId == tid) rest :=
          List.find?_cons_of_neg _ (by simp [ht])
        have hL : List.find? (fun v => v.id == vid && v.tenantId == tid && g v)
            (v :: rest) = List.find?
              (fun v => v.id == vid && v.tenantId == tid && g v) rest :=
          List.find?_cons_of_neg _ (by simp [ht])
        rw [hL, hR]
        exact ih hnd.2
    · have hR : List.find? (fun v => v.id == vid && v.tenantId == tid)
          (v :: rest) = List.find?
            (fun v => v.id == vid && v.tenantId == tid) rest :=
        List.find?_cons_of_neg _ (by simp [hid])
      have hL : List.find? (fun v => v.id == vid && v.tenantId == tid && g v)
          (v :: rest) = List.find?
            (fun v => v.id == vid && v.tenantId == tid && g v) rest :=
        List.find?_cons_of_neg _ (by simp [hid])
      rw [hL, hR]
      exact ih hnd.2

/-- The applied/not-applied outcome of a guarded stock mutation, phrased
against the plain `{_id, tenantId}` lookup. -/
theorem fous_guard_fst {vs : List Variant} (hnd : (vs.map Variant.id).Nodup)
    (vid tid : Nat) (g : Variant → Bool) (d : Int) :
    (findOneAndUpdateStock vs
        (fun v => v.id == vid && v.tenantId == tid && g v) d).1 =
      match vs.find? (fun v => v.id == vid && v.tenantId == tid) with
      | some v => if g v then some (updStock d v) else none
      | none => none := by
  rw [fous_fst, find?_guard_eq hnd]
  cases vs.find? (fun v => v.id == vid && v.tenantId == tid) with
  | none => rfl
  | some v =>
    by_cases hg : g v = true <;> simp [hg]

theorem attemptDeduct_snd_nonneg {vs : List Variant} {vid tid : Nat}
    {q : Int} (hvs : ∀ v ∈ vs, 0 ≤ v.stock) :
    ∀ w ∈ (attemptDeduct vs vid tid q).2, 0 ≤ w.stock := by
  intro w hw
  rcases fous_snd_mem hw with hmem | ⟨v, hv, hfv, rfl⟩
  · exact hvs w hmem
  · simp only [Bool.and_eq_true, beq_iff_eq, decide_eq_true_eq] at hfv
    simp only [updStock]
    omega

theorem processOrderItems_ok
    {tid uid : Nat} {products : List Product} {items : List OrderReqItem}
    {vs vs' : List Variant} {ois : List OrderItem} {ms : List StockMovement}
    (hnd : (vs.map Variant.id).Nodup)
    (h : processOrderItems tid uid products items vs = .ok (vs', ois, ms)) :
    StockEvolve ms vs vs' ∧
    ((∀ v ∈ vs, 0 ≤ v.stock) → ∀ w ∈ vs', 0 ≤ w.stock) ∧
    (∀ m ∈ ms, m.newStock = m.previousStock + m.quantity ∧
      m.type = .sale ∧ m.variantId ∈ vs.map Variant.id) ∧
    ois.map (fun oi => (oi.variantId, oi.quantity)) =
      items.map (fun i => (i.variantId, i.quantity)) ∧
    ms.map (fun m => (m.variantId, m.quantity)) =
      items.map (fun i => (i.variantId, -i.quantity)) := by
  induction items generalizing vs vs' ois ms with
  | nil =>
    simp only [processOrderItems, Except.ok.injEq, Prod.mk.injEq] at h
    obtain ⟨rfl, rfl, rfl⟩ := h
    exact ⟨stockEvolve_nil vs, fun hv w hw => hv w hw, by simp, by simp, by simp⟩
  | cons item rest ih =>
    simp only [processOrderItems] at h
    split at h
    · split at h <;> simp at h
    · rename_i variant hr1
      split at h
      · simp at h
      · rename_i vs₂ ois₂ ms₂ hrec
        simp only [Except.ok.injEq, Prod.mk.injEq] at h
        obtain ⟨rfl, rfl, rfl⟩ := h
        have hnd2 : (((attemptDeduct vs item.variantId tid
            item.quantity).2).map Variant.id).Nodup := by
          rw [attemptDeduct, fous_snd_ids]
          exact hnd
        obtain ⟨hev, hnn, hmv, hois, hms⟩ := ih hnd2 hrec
        have hr1' := hr1
        rw [attemptDeduct, fous_fst] at hr1'
        cases hfind : vs.find?
            (fun v => v.id == item.variantId && v.tenantId == tid &&
              decide (item.quantity ≤ v.stock)) with
        | none => rw [hfind] at hr1'; cases hr1'
        | some v₀ =>
          rw [hfind] at hr1'
          have hvar : variant = updStock (-item.quantity) v₀ := by
            simpa using hr1'.symm
          have hfv₀ := List.find?_some hfind
          simp only [Bool.and_eq_true, beq_iff_eq, decide_eq_true_eq] at hfv₀
          have hvid : variant.id = item.variantId := by
            rw [hvar, updStock_id, hfv₀.1.1]
          have hstep : StockEvolve
              [{ tenantId := tid, variantId := variant.id,
                 productId := variant.productId, type := .sale,
                 quantity := -item.quantity,
                 previousStock := variant.stock + item.quantity,
                 newStock := variant.stock, reference := "",
                 referenceId := none, notes := "", createdBy := uid }]
              vs (attemptDeduct vs item.variantId tid item.quantity).2 := by
            rw [attemptDeduct]
            exact stockEvolve_fous hnd
              (fun v hv => by
                simp only [Bool.and_eq_true, beq_iff_eq,
                  decide_eq_true_eq] at hv
                exact hv.1.1)
              hr1 _ hvid rfl
          refine ⟨?_, ?_, ?_, ?_, ?_⟩
          · exact stockEvolve_trans hstep hev
          · intro hvs w hw
            exact hnn (attemptDeduct_snd_nonneg hvs) w hw
          · intro m hm
            rcases List.mem_cons.mp hm with rfl | hm
            · refine ⟨by dsimp; ring, rfl, ?_⟩
              dsimp
              rw [hvar, updStock_id]
              exact List.mem_map_of_mem _ (List.mem_of_find?_eq_some hfind)
            · obtain ⟨hc1, hc2, hc3⟩ := hmv m hm
              refine ⟨hc1, hc2, ?_⟩
              rw [attemptDeduct, fous_snd_ids] at hc3
              exact hc3
          · simp only [List.map_cons, hois]
            congr 1
            simp [hvid]
          · simp only [List.map_cons, hms]
            congr 1
            simp [hvid]

theorem processOrderItems_error
    {tid uid : Nat} {products : List Product} {items : List OrderReqItem}
    {vs : List Variant} {e : AppErr}
    (h : processOrderItems tid uid products items vs = .error e) :
    (∃ i ∈ items, e = .variantNotFound i.variantId) ∨
    (∃ i ∈ items, ∃ sku avail, avail < i.quantity ∧
      e = .insufficientStock sku avail i.quantity) := by
  induction items generalizing vs with
  | nil => simp [processOrderItems] at h
  | cons item rest ih =>
    simp only [processOrderItems] at h
    split at h
    · rename_i hr1
      split at h
      · rename_i hfind
        injection h with h
        exact Or.inl ⟨item, List.mem_cons_self item rest, h.symm⟩
      · rename_i ex hfind
        injection h with h
        have hins : ex.stock < item.quantity := by
          rw [attemptDeduct, fous_fst, Option.map_eq_none'] at hr1
          rw [List.find?_eq_none] at hr1
          have hx := hr1 ex (List.mem_of_find?_eq_some hfind)
          have hpl := List.find?_some hfind
          simp only [Bool.and_eq_true, beq_iff_eq] at hpl
          simp only [Bool.and_eq_true, beq_iff_eq, decide_eq_true_eq,
            not_and, not_le] at hx
          exact hx hpl
        exact Or.inr ⟨item, List.mem_cons_self item rest, ex.sku, ex.stock,
          hins, h.symm⟩
    · rename_i variant hr1
      split at h
      · rename_i e' hrec
        injection h with h
        subst h
        rcases ih hrec with ⟨i, hi, he⟩ | ⟨i, hi, sku, avail, hlt, he⟩
        · exact Or.inl ⟨i, List.mem_cons_of_mem _ hi, he⟩
        · exact Or.inr ⟨i, List.mem_cons_of_mem _ hi, sku, avail, hlt, he⟩
      · simp at h

theorem cancelRestoreItems_spec
    {tid uid : Nat} {n : String} {oid : Nat} {reason : String}
    {items : List OrderItem} {vs vs' : List Variant} {ms : List StockMovement}
    (hnd : (vs.map Variant.id).Nodup)
    (h : cancelRestoreItems tid uid n oid reason items vs = (vs', ms)) :
    StockEvolve ms vs vs' ∧
    ((∀ item ∈ items, 0 ≤ item.quantity) → (∀ v ∈ vs, 0 ≤ v.stock) →
      ∀ w ∈ vs', 0 ≤ w.stock) ∧
    (∀ m ∈ ms, m.newStock = m.previousStock + m.quantity ∧
      m.type = .ret ∧ m.reference = "Cancelled Order " ++ n ∧
      m.variantId ∈ vs.map Variant.id ∧
      ∃ item ∈ items, m.variantId = item.variantId ∧
        m.quantity = item.quantity) ∧
    ((∀ item ∈ items, ∃ v ∈ vs, v.id = item.variantId ∧ v.tenantId = tid) →
      ms.map (fun m => (m.variantId, m.quantity)) =
        items.map (fun i => (i.variantId, i.quantity))) := by
  induction items generalizing vs vs' ms with
  | nil =>
    simp only [cancelRestoreItems, Prod.mk.injEq] at h
    obtain ⟨rfl, rfl⟩ := h
    exact ⟨stockEvolve_nil vs, fun _ hv w hw => hv w hw, by simp, by simp⟩
  | cons item rest ih =>
    simp only [cancelRestoreItems] at h
    split at h
    · rename_i hr1
      have hfind : vs.find?
          (fun v => v.id == item.variantId && v.tenantId == tid) = none := by
        rw [fous_fst, Option.map_eq_none'] at hr1
        exact hr1
      have hvs : (findOneAndUpdateStock vs
          (fun v => v.id == item.variantId && v.tenantId == tid)
          item.quantity).2 = vs := by
        rw [fous_of_find?_none hfind]
      rw [hvs] at h
      obtain ⟨hev, hnn, hmv, hcor⟩ := ih hnd h
      refine ⟨hev, ?_, ?_, ?_⟩
      · intro hq hv w hw
        exact hnn (fun x hx => hq x (List.mem_cons_of_mem _ hx)) hv w hw
      · intro m hm
        obtain ⟨h1, h2, h3, h4, it, hit, h5⟩ := hmv m hm
        exact ⟨h1, h2, h3, h4, it, List.mem_cons_of_mem _ hit, h5⟩
      · intro hall
        exfalso
        obtain ⟨v, hv, hvid, hvt⟩ := hall item (List.mem_cons_self item rest)
        rw [List.find?_eq_none] at hfind
        exact hfind v hv (by simp [hvid, hvt])
    · rename_i variant hr1
      obtain ⟨rfl, rfl⟩ : (cancelRestoreItems tid uid n oid reason rest
          (findOneAndUpdateStock vs
            (fun v => v.id == item.variantId && v.tenantId == tid)
            item.quantity).2).1 = vs' ∧ _ = ms := by
        constructor
        · exact congrArg Prod.fst h
        · exact congrArg Prod.snd h
      have hnd2 : (((findOneAndUpdateStock vs
          (fun v => v.id == item.variantId && v.tenantId == tid)
          item.quantity).2).map Variant.id).Nodup := by
        rw [fous_snd_ids]; exact hnd
      obtain ⟨hev, hnn, hmv, hcor⟩ := ih hnd2 rfl
      have hr1' := hr1
      rw [fous_fst] at hr1'
      cases hfind : vs.find?
          (fun v => v.id == item.variantId && v.tenantId == tid) with
      | none => rw [hfind] at hr1'; cases hr1'
      | some v₀ =>
        rw [hfind] at hr1'
        have hvar : variant = updStock item.quantity v₀ := by
          simpa using hr1'.symm
        have hfv₀ := List.find?_some hfind
        simp only [Bool.and_eq_true, beq_iff_eq] at hfv₀
        have hvid : variant.id = item.variantId := by
          rw [hvar, updStock_id, hfv₀.1]
        have hstep : StockEvolve
            [{ tenantId := tid, variantId := variant.id,
               productId := item.productId, type := .ret,
               quantity := item.quantity,
               previousStock := variant.stock - item.quantity,
               newStock := variant.stock,
               reference := "Cancelled Order " ++ n,
               referenceId := some oid,
               notes := if reason == "" then "Order cancelled" else reason,
               createdBy := uid }]
            vs (findOneAndUpdateStock vs
              (fun v => v.id == item.variantId && v.tenantId == tid)
              item.quantity).2 :=
          stockEvolve_fous hnd
            (fun v hv => by
              simp only [Bool.and_eq_true, beq_iff_eq] at hv
              exact hv.1)
            hr1 _ hvid rfl
        refine ⟨stockEvolve_trans hstep hev, ?_, ?_, ?_⟩
        · intro hq hv w hw
          refine hnn (fun x hx => hq x (List.mem_cons_of_mem _ hx)) ?_ w hw
          intro x hx
          rcases fous_snd_mem hx with hmem | ⟨v, hvm, _, rfl⟩
          · exact hv x hmem
          · have hq0 : 0 ≤ item.quantity :=
              hq item (List.mem_cons_self item rest)
            have := hv v hvm
            simp only [updStock]
            omega
        · intro m hm
          rcases List.mem_cons.mp hm with rfl | hm
          · refine ⟨by dsimp; ring, rfl, rfl, ?_, item,
              List.mem_cons_self item rest, by dsimp; rw [hvid], rfl⟩
            dsimp
            rw [hvar, updStock_id]
            exact List.mem_map_of_mem _ (List.mem_of_find?_eq_some hfind)
          · obtain ⟨h1, h2, h3, h4, it, hit, h5⟩ := hmv m hm
            rw [fous_snd_ids] at h4
            exact ⟨h1, h2, h3, h4, it, List.mem_cons_of_mem _ hit, h5⟩
        · intro hall
          simp only [List.map_cons]
          have hrest : ∀ it ∈ rest, ∃ v ∈ (findOneAndUpdateStock vs
              (fun v => v.id == item.variantId && v.tenantId == tid)
              item.quantity).2, v.id = it.variantId ∧ v.tenantId = tid := by
            intro it hit
            obtain ⟨v, hv, hvid', hvt⟩ := hall it (List.mem_cons_of_mem _ hit)
            exact ⟨updStock (sumFor v.id _) v, stockEvolve_mem_fwd hstep hv,
              by rw [updStock_id, hvid'], by
                simp only [updStock]
                exact hvt⟩
          rw [hcor hrest]
          congr 1
          simp [hvid]

/-- The pointwise relation between a PO line before and after a receive
call: identity and ordered quantity are untouched, received quantity only
grows. -/
theorem forall₂_poline_refl (items : List POItem) :
    List.Forall₂ (fun i i' : POItem => i'.variantId = i.variantId ∧
      i'.quantityOrdered = i.quantityOrdered ∧
      i.quantityReceived ≤ i'.quantityReceived) items items := by
  induction items with
  | nil => exact List.Forall₂.nil
  | cons i rest ih => exact List.Forall₂.cons ⟨rfl, rfl, le_refl _⟩ ih

theorem forall₂_poline_trans {l1 l2 l3 : List POItem}
    (h1 : List.Forall₂ (fun i i' : POItem => i'.variantId = i.variantId ∧
      i'.quantityOrdered = i.quantityOrdered ∧
      i.quantityReceived ≤ i'.quantityReceived) l1 l2)
    (h2 : List.Forall₂ (fun i i' : POItem => i'.variantId = i.variantId ∧
      i'.quantityOrdered = i.quantityOrdered ∧
      i.quantityReceived ≤ i'.quantityReceived) l2 l3) :
    List.Forall₂ (fun i i' : POItem => i'.variantId = i.variantId ∧
      i'.quantityOrdered = i.quantityOrdered ∧
      i.quantityReceived ≤ i'.quantityReceived) l1 l3 := by
  induction h1 generalizing l3 with
  | nil => cases h2; exact List.Forall₂.nil
  | cons hab hrest ih =>
    cases h2 with
    | cons hbc hrest2 =>
      exact List.Forall₂.cons
        ⟨by rw [hbc.1, hab.1], by rw [hbc.2.1, hab.2.1],
          le_trans hab.2.2 hbc.2.2⟩ (ih hrest2)

theorem forall₂_mem_left {R : POItem → POItem → Prop}
    {l l' : List POItem} (h : List.Forall₂ R l l') {a : POItem}
    (ha : a ∈ l) : ∃ b ∈ l', R a b := by
  induction h with
  | nil => cases ha
  | cons hab hrest ih =>
    rcases List.mem_cons.mp ha with rfl | ha
    · exact ⟨_, List.mem_cons_self _ _, hab⟩
    · obtain ⟨b, hb, hr⟩ := ih ha
      exact ⟨b, List.mem_cons_of_mem _ hb, hr⟩

theorem updateFirstPOItem_of_find? {items : List POItem} {vid : Nat}
    {poItem : POItem}
    (hfind : items.find? (fun i => i.variantId == vid) = some poItem)
    (q : Int) (aup : Option Int) :
    ∃ l1 l2, items = l1 ++ poItem :: l2 ∧
      (∀ x ∈ l1, (x.variantId == vid) = false) ∧
      updateFirstPOItem vid q aup items = l1 ++
        { poItem with quantityReceived := poItem.quantityReceived + q,
                      actualUnitPrice := (match aup with
                        | some p => some p
                        | none => poItem.actualUnitPrice) } :: l2 := by
  induction items with
  | nil => cases hfind
  | cons i rest ih =>
    by_cases hi : (i.variantId == vid) = true
    · rw [List.find?_cons_of_pos _ (by exact hi)] at hfind
      cases hfind
      refine ⟨[], rest, rfl, by simp, ?_⟩
      simp [updateFirstPOItem, hi]
    · rw [List.find?_cons_of_neg _ (by exact hi)] at hfind
      obtain ⟨l1, l2, he, hl1, hu⟩ := ih hfind
      refine ⟨i :: l1, l2, by rw [he]; rfl, ?_, ?_⟩
      · intro x hx
        rcases List.mem_cons.mp hx with rfl | hx
        · simpa using hi
        · exact hl1 x hx
      · simp only [updateFirstPOItem, hi]
        simp [hu]

theorem receiveItemsLoop_ok
    {tid uid : Nat} {poNumber : String} {poid : Nat}
    {recvs : List ReceiveItem} {items items' : List POItem}
    {vs vs' : List Variant} {ms : List StockMovement}
    (hnd : (vs.map Variant.id).Nodup)
    (h : receiveItemsLoop tid uid poNumber poid recvs items vs =
      .ok (items', vs', ms)) :
    StockEvolve ms vs vs' ∧
    ((∀ r ∈ recvs, 1 ≤ r.quantityReceived) → (∀ v ∈ vs, 0 ≤ v.stock) →
      ∀ w ∈ vs', 0 ≤ w.stock) ∧
    (∀ m ∈ ms, m.newStock = m.previousStock + m.quantity ∧
      m.type = .purchase ∧ m.reference = "PO " ++ poNumber ∧
      m.variantId ∈ vs.map Variant.id) ∧
    ((∀ r ∈ recvs, 1 ≤ r.quantityReceived) →
      (∀ item ∈ items, 0 ≤ item.quantityReceived ∧
        item.quantityReceived ≤ item.quantityOrdered) →
      ∀ item ∈ items', 0 ≤ item.quantityReceived ∧
        item.quantityReceived ≤ item.quantityOrdered) ∧
    ((∀ r ∈ recvs, 1 ≤ r.quantityReceived) →
      List.Forall₂ (fun i i' : POItem => i'.variantId = i.variantId ∧
        i'.quantityOrdered = i.quantityOrdered ∧
        i.quantityReceived ≤ i'.quantityReceived) items items') ∧
    ((∀ r ∈ recvs, 1 ≤ r.quantityReceived) →
      (∀ item ∈ items, 0 ≤ item.quantityReceived) →
      ∀ r₀ ∈ recvs, ∃ item ∈ items', 1 ≤ item.quantityReceived) := by
  induction recvs generalizing items items' vs vs' ms with
  | nil =>
    simp only [receiveItemsLoop, Except.ok.injEq, Prod.mk.injEq] at h
    obtain ⟨rfl, rfl, rfl⟩ := h
    refine ⟨stockEvolve_nil vs, fun _ hv w hw => hv w hw, by simp,
      fun _ hi => hi, fun _ => forall₂_poline_refl items, by simp⟩
  | cons received rest ih =>
    simp only [receiveItemsLoop] at h
    split at h
    · simp at h
    · rename_i poItem hfind
      split at h
      · simp at h
      · rename_i hq
        split at h
        · simp at h
        · rename_i items₂ vs₂ ms₂ hrec
          have hq' : received.quantityReceived ≤
              poItem.quantityOrdered - poItem.quantityReceived := by
            omega
          obtain ⟨l1, l2, hitems, hl1, hupd⟩ :=
            updateFirstPOItem_of_find? hfind received.quantityReceived
              received.actualUnitPrice
          split at h
          · rename_i hr1
            simp only [Except.ok.injEq, Prod.mk.injEq] at h
            obtain ⟨rfl, rfl, rfl⟩ := h
            have hfind0 : vs.find? (fun v => v.id == received.variantId &&
                v.tenantId == tid) = none := by
              rw [fous_fst, Option.map_eq_none'] at hr1
              exact hr1
            have hvs : (findOneAndUpdateStock vs
                (fun v => v.id == received.variantId && v.tenantId == tid)
                received.quantityReceived).2 = vs := by
              rw [fous_of_find?_none hfind0]
            rw [hvs] at hrec
            obtain ⟨hev, hnn, hmv, hE, hF, hA⟩ := ih hnd hrec
            have hstepE : (∀ r ∈ received :: rest, 1 ≤ r.quantityReceived) →
                (∀ item ∈ items, 0 ≤ item.quantityReceived ∧
                  item.quantityReceived ≤ item.quantityOrdered) →
                ∀ x ∈ updateFirstPOItem received.variantId
                  received.quantityReceived received.actualUnitPrice items,
                  0 ≤ x.quantityReceived ∧
                  x.quantityReceived ≤ x.quantityOrdered := by
              intro hr hi x hx
              rw [hupd] at hx
              have hq1 : 1 ≤ received.quantityReceived :=
                hr received (List.mem_cons_self _ _)
              rcases List.mem_append.mp hx with hx | hx
              · exact hi x (by rw [hitems]; exact List.mem_append_left _ hx)
              · rcases List.mem_cons.mp hx with rfl | hx
                · have hp := hi poItem (by
                    rw [hitems]
                    exact List.mem_append_right _ (List.mem_cons_self _ _))
                  dsimp
                  omega
                · exact hi x (by
                    rw [hitems]
                    exact List.mem_append_right _ (List.mem_cons_of_mem _ hx))
            have hstepF : 1 ≤ received.quantityReceived → List.Forall₂
                (fun i i' : POItem => i'.variantId = i.variantId ∧
                  i'.quantityOrdered = i.quantityOrdered ∧
                  i.quantityReceived ≤ i'.quantityReceived) items
                (updateFirstPOItem received.variantId
                  received.quantityReceived received.actualUnitPrice items) := by
              intro hq1
              rw [hupd, hitems]
              refine List.rel_append (forall₂_poline_refl l1) ?_
              refine List.Forall₂.cons ⟨rfl, rfl, ?_⟩ (forall₂_poline_refl l2)
              dsimp
              omega
            refine ⟨hev, ?_, hmv, ?_, ?_, ?_⟩
            · intro hr hv w hw
              exact hnn (fun x hx => hr x (List.mem_cons_of_mem _ hx)) hv w hw
            · intro hr hi
              exact hE (fun x hx => hr x (List.mem_cons_of_mem _ hx))
                (hstepE hr hi)
            · intro hr
              exact forall₂_poline_trans
                (hstepF (hr received (List.mem_cons_self _ _)))
                (hF (fun x hx => hr x (List.mem_cons_of_mem _ hx)))
            · intro hr hi r₀ hr₀
              have hq1 : 1 ≤ received.quantityReceived :=
                hr received (List.mem_cons_self _ _)
              have h0 : 0 ≤ poItem.quantityReceived :=
                hi poItem (by
                  rw [hitems]
                  exact List.mem_append_right _ (List.mem_cons_self _ _))
              have humem : ({ poItem with quantityReceived := poItem.quantityReceived + received.quantityReceived, actualUnitPrice := (match received.actualUnitPrice with | some p => some p | none => poItem.actualUnitPrice) } : POItem) ∈ updateFirstPOItem received.variantId received.quantityReceived received.actualUnitPrice items := by
                rw [hupd]
                exact List.mem_append_right _ (List.mem_cons_self _ _)
              obtain ⟨b, hb, hrel⟩ := forall₂_mem_left
                (hF (fun x hx => hr x (List.mem_cons_of_mem _ hx))) humem
              refine ⟨b, hb, ?_⟩
              have hle := hrel.2.2
              dsimp at hle
              omega
          · rename_i variant hr1
            simp only [Except.ok.injEq, Prod.mk.injEq] at h
            obtain ⟨rfl, rfl, rfl⟩ := h
            have hnd2 : (((findOneAndUpdateStock vs
                (fun v => v.id == received.variantId && v.tenantId == tid)
                received.quantityReceived).2).map Variant.id).Nodup := by
              rw [fous_snd_ids]; exact hnd
            obtain ⟨hev, hnn, hmv, hE, hF, hA⟩ := ih hnd2 hrec
            have hr1' := hr1
            rw [fous_fst] at hr1'
            cases hfind0 : vs.find?
                (fun v => v.id == received.variantId && v.tenantId == tid) with
            | none => rw [hfind0] at hr1'; cases hr1'
            | some v₀ =>
              rw [hfind0] at hr1'
              have hvar : variant = updStock received.quantityReceived v₀ := by
                simpa using hr1'.symm
              have hfv₀ := List.find?_some hfind0
              simp only [Bool.and_eq_true, beq_iff_eq] at hfv₀
              have hvid : variant.id = received.variantId := by
                rw [hvar, updStock_id, hfv₀.1]
              have hstep : StockEvolve
                  [{ tenantId := tid, variantId := variant.id,
                     productId := variant.productId, type := .purchase,
                     quantity := received.quantityReceived,
                     previousStock := variant.stock - received.quantityReceived,
                     newStock := variant.stock,
                     reference := "PO " ++ poNumber,
                     referenceId := some poid, notes := "",
                     createdBy := uid }]
                  vs (findOneAndUpdateStock vs
                    (fun v => v.id == received.variantId && v.tenantId == tid)
                    received.quantityReceived).2 :=
                stockEvolve_fous hnd
                  (fun v hv => by
                    simp only [Bool.and_eq_true, beq_iff_eq] at hv
                    exact hv.1)
                  hr1 _ hvid rfl
              have hstepE : (∀ r ∈ received :: rest, 1 ≤ r.quantityReceived) →
                  (∀ item ∈ items, 0 ≤ item.quantityReceived ∧
                    item.quantityReceived ≤ item.quantityOrdered) →
                  ∀ x ∈ updateFirstPOItem received.variantId
                    received.quantityReceived received.actualUnitPrice items,
                    0 ≤ x.quantityReceived ∧
                    x.quantityReceived ≤ x.quantityOrdered := by
                intro hr hi x hx
                rw [hupd] at hx
                have hq1 : 1 ≤ received.quantityReceived :=
                  hr received (List.mem_cons_self _ _)
                rcases List.mem_append.mp hx with hx | hx
                · exact hi x (by rw [hitems]; exact List.mem_append_left _ hx)
                · rcases List.mem_cons.mp hx with rfl | hx
                  · have hp := hi poItem (by
                      rw [hitems]
                      exact List.mem_append_right _ (List.mem_cons_self _ _))
                    dsimp
                    omega
                  · exact hi x (by
                      rw [hitems]
                      exact List.mem_append_right _ (List.mem_cons_of_mem _ hx))
              have hstepF : 1 ≤ received.quantityReceived → List.Forall₂
                  (fun i i' : POItem => i'.variantId = i.variantId ∧
                    i'.quantityOrdered = i.quantityOrdered ∧
                    i.quantityReceived ≤ i'.quantityReceived) items
                  (updateFirstPOItem received.variantId
                    received.quantityReceived received.actualUnitPrice items) := by
                intro hq1
                rw [hupd, hitems]
                refine List.rel_append (forall₂_poline_refl l1) ?_
                refine List.Forall₂.cons ⟨rfl, rfl, ?_⟩ (forall₂_poline_refl l2)
                dsimp
                omega
              refine ⟨stockEvolve_trans hstep hev, ?_, ?_, ?_, ?_, ?_⟩
              · intro hr hv w hw
                refine hnn (fun x hx => hr x (List.mem_cons_of_mem _ hx))
                  ?_ w hw
                intro x hx
                rcases fous_snd_mem hx with hmem | ⟨v, hvm, _, rfl⟩
                · exact hv x hmem
                · have hq1 : 1 ≤ received.quantityReceived :=
                    hr received (List.mem_cons_self _ _)
                  have := hv v hvm
                  simp only [updStock]
                  omega
              · intro m hm
                rcases List.mem_cons.mp hm with rfl | hm
                · refine ⟨by dsimp; ring, rfl, rfl, ?_⟩
                  dsimp
                  rw [hvar, updStock_id]
                  exact List.mem_map_of_mem _
                    (List.mem_of_find?_eq_some hfind0)
                · obtain ⟨h1, h2, h3, h4⟩ := hmv m hm
                  rw [fous_snd_ids] at h4
                  exact ⟨h1, h2, h3, h4⟩
              · intro hr hi
                exact hE (fun x hx => hr x (List.mem_cons_of_mem _ hx))
                  (hstepE hr hi)
              · intro hr
                exact forall₂_poline_trans
                  (hstepF (hr received (List.mem_cons_self _ _)))
                  (hF (fun x hx => hr x (List.mem_cons_of_mem _ hx)))
              · intro hr hi r₀ hr₀
                have hq1 : 1 ≤ received.quantityReceived :=
                  hr received (List.mem_cons_self _ _)
                have h0 : 0 ≤ poItem.quantityReceived :=
                  hi poItem (by
                    rw [hitems]
                    exact List.mem_append_right _ (List.mem_cons_self _ _))
                have humem : ({ poItem with quantityReceived := poItem.quantityReceived + received.quantityReceived, actualUnitPrice := (match received.actualUnitPrice with | some p => some p | none => poItem.actualUnitPrice) } : POItem) ∈ updateFirstPOItem received.variantId received.quantityReceived received.actualUnitPrice items := by
                  rw [hupd]
                  exact List.mem_append_right _ (List.mem_cons_self _ _)
                obtain ⟨b, hb, hrel⟩ := forall₂_mem_left
                  (hF (fun x hx => hr x (List.mem_cons_of_mem _ hx))) humem
                refine ⟨b, hb, ?_⟩
                have hle := hrel.2.2
                dsimp at hle
                omega

theorem receiveItemsLoop_error
    {tid uid : Nat} {poNumber : String} {poid : Nat}
    {recvs : List ReceiveItem} {items : List POItem}
    {vs : List Variant} {e : AppErr}
    (h : receiveItemsLoop tid uid poNumber poid recvs items vs = .error e) :
    e = .itemNotInPO ∨
    ∃ r ∈ recvs, ∃ rem, rem < r.quantityReceived ∧
      e = .overReceipt r.quantityReceived rem := by
  induction recvs generalizing items vs with
  | nil => simp [receiveItemsLoop] at h
  | cons received rest ih =>
    simp only [receiveItemsLoop] at h
    split at h
    · injection h with h
      exact Or.inl h.symm
    · rename_i poItem hfind
      split at h
      · rename_i hq
        injection h with h
        exact Or.inr ⟨received, List.mem_cons_self _ _,
          poItem.quantityOrdered - poItem.quantityReceived, hq, h.symm⟩
      · split at h
        · rename_i e' hrec
          injection h with h
          subst h
          rcases ih hrec with he | ⟨r, hr, rem, hrem, he⟩
          · exact Or.inl he
          · exact Or.inr ⟨r, List.mem_cons_of_mem _ hr, rem, hrem, he⟩
        · split at h <;> simp at h

/-! ### Preservation of well-formedness by every route handler -/

theorem ledger_preserved {db : DB} {vs' : List Variant}
    {ms : List StockMovement}
    (hF : ∀ v ∈ db.variants,
      initFor db v.id = some (v.stock - sumFor v.id db.movements))
    (hev : StockEvolve ms db.variants vs')
    {db' : DB} (hinit : db'.initials = db.initials)
    (hmov : db'.movements = db.movements ++ ms)
    (hvar : db'.variants = vs') :
    ∀ v ∈ db'.variants,
      initFor db' v.id = some (v.stock - sumFor v.id db'.movements) := by
  intro v' hv'
  rw [hvar] at hv'
  obtain ⟨v, hv, rfl⟩ := stockEvolve_mem hev hv'
  have hsame : initFor db' (updStock (sumFor v.id ms) v).id =
      initFor db v.id := by
    simp only [initFor, hinit, updStock_id]
  rw [hsame, hF v hv, hmov, updStock_id, sumFor_append]
  congr 1
  simp only [updStock]
  ring

theorem initFor_append_left {db db' : DB} {q : Nat × Int}
    (hinit : db'.initials = db.initials ++ [q]) {vid : Nat} {x : Int}
    (h : initFor db vid = some x) : initFor db' vid = some x := by
  simp only [initFor, hinit, List.find?_append]
  simp only [initFor] at h
  cases hf : db.initials.find? (fun p => p.1 == vid) with
  | none => rw [hf] at h; cases h
  | some p =>
    rw [hf] at h
    simpa using h

theorem initFor_append_new {db db' : DB} {k : Nat} {s : Int}
    (hinit : db'.initials = db.initials ++ [(k, s)])
    (hk : ∀ q ∈ db.initials, q.1 ≠ k) : initFor db' k = some s := by
  simp only [initFor, hinit, List.find?_append]
  have hnone : db.initials.find? (fun p => p.1 == k) = none := by
    rw [List.find?_eq_none]
    intro q hq
    simpa using hk q hq
  rw [hnone]
  simp

theorem wf_createProduct {db : DB} {tid : Nat} {name : String}
    {db' : DB} {p : Product} (hwf : WF db)
    (h : createProduct db tid name = .ok (db', p)) : WF db' := by
  obtain ⟨hA, hBv, hBo, hBp, hBq, hBi, hBm, hC, hD, hE, hG, hF⟩ := hwf
  simp only [createProduct, Except.ok.injEq, Prod.mk.injEq] at h
  obtain ⟨rfl, rfl⟩ := h
  refine ⟨hA, ?_, ?_, ?_, ?_, ?_, ?_, hC, hD, hE, hG, ?_⟩
  · exact fun v hv => Nat.lt_succ_of_lt (hBv v hv)
  · exact fun o ho => Nat.lt_succ_of_lt (hBo o ho)
  · exact fun q hq => Nat.lt_succ_of_lt (hBp q hq)
  · intro q hq
    rcases List.mem_append.mp hq with hq | hq
    · exact Nat.lt_succ_of_lt (hBq q hq)
    · rw [List.mem_singleton.mp hq]
      exact Nat.lt_succ_self _
  · exact fun q hq => Nat.lt_succ_of_lt (hBi q hq)
  · exact fun m hm => Nat.lt_succ_of_lt (hBm m hm)
  · intro v hv
    exact hF v hv

theorem wf_createVariant {db : DB} {tid pid : Nat} {sku : String}
    {price costPrice stock lst : Int} {db' : DB} {v : Variant}
    (hwf : WF db)
    (h : createVariant db tid pid sku price costPrice stock lst =
      .ok (db', v)) : WF db' := by
  obtain ⟨hA, hBv, hBo, hBp, hBq, hBi, hBm, hC, hD, hE, hG, hF⟩ := hwf
  simp only [createVariant] at h
  split at h
  · simp at h
  · rename_i hval
    split at h
    · simp at h
    · rename_i prod hprod
      simp only [Except.ok.injEq, Prod.mk.injEq] at h
      obtain ⟨rfl, rfl⟩ := h
      simp only [Bool.or_eq_true, not_or, decide_eq_true_eq] at hval
      refine ⟨?_, ?_, ?_, ?_, ?_, ?_, ?_, ?_, hD, hE, hG, ?_⟩
      · simp only [List.map_append, List.map_cons, List.map_nil]
        rw [List.nodup_middle]
        rw [List.nodup_cons]
        constructor
        · simp only [List.append_nil]
          intro hmem
          obtain ⟨w, hw, hwid⟩ := List.mem_map.mp hmem
          exact absurd hwid (Nat.ne_of_gt (hBv w hw)).symm
        · simpa using hA
      · intro w hw
        rcases List.mem_append.mp hw with hw | hw
        · exact Nat.lt_succ_of_lt (hBv w hw)
        · rw [List.mem_singleton.mp hw]
          exact Nat.lt_succ_self _
      · exact fun o ho => Nat.lt_succ_of_lt (hBo o ho)
      · exact fun q hq => Nat.lt_succ_of_lt (hBp q hq)
      · exact fun q hq => Nat.lt_succ_of_lt (hBq q hq)
      · intro q hq
        rcases List.mem_append.mp hq with hq | hq
        · exact Nat.lt_succ_of_lt (hBi q hq)
        · rw [List.mem_singleton.mp hq]
          exact Nat.lt_succ_self _
      · exact fun m hm => Nat.lt_succ_of_lt (hBm m hm)
      · intro w hw
        rcases List.mem_append.mp hw with hw | hw
        · exact hC w hw
        · rw [List.mem_singleton.mp hw]
          dsimp
          omega
      · intro w hw
        rcases List.mem_append.mp hw with hw | hw
        · exact initFor_append_left rfl (hF w hw)
        · rw [List.mem_singleton.mp hw]
          have hz : sumFor db.nextId db.movements = 0 :=
            sumFor_eq_zero (fun m hm => Nat.ne_of_lt (hBm m hm))
          have hnone : db.initials.find? (fun p => p.1 == db.nextId) = none := by
            rw [List.find?_eq_none]
            intro q hq
            simpa using Nat.ne_of_lt (hBi q hq)
          simp only [initFor, List.find?_append, hnone, Option.none_or]
          simp [hz]

theorem removeFirstVariant_sublist (f : Variant → Bool) (vs : List Variant) :
    (removeFirstVariant f vs).Sublist vs := by
  induction vs with
  | nil => exact List.Sublist.refl _
  | cons v rest ih =>
    simp only [removeFirstVariant]
    split
    · exact List.sublist_cons_self v rest
    · exact List.Sublist.cons₂ v ih

theorem removeFirstProduct_sublist (f : Product → Bool) (ps : List Product) :
    (removeFirstProduct f ps).Sublist ps := by
  induction ps with
  | nil => exact List.Sublist.refl _
  | cons p rest ih =>
    simp only [removeFirstProduct]
    split
    · exact List.sublist_cons_self p rest
    · exact List.Sublist.cons₂ p ih

theorem wf_deleteVariant {db : DB} {tid vid : Nat} {db' : DB}
    (hwf : WF db) (h : deleteVariant db tid vid = .ok db') : WF db' := by
  obtain ⟨hA, hBv, hBo, hBp, hBq, hBi, hBm, hC, hD, hE, hG, hF⟩ := hwf
  simp only [deleteVariant] at h
  split at h
  · simp at h
  · injection h with h
    subst h
    have hsub := removeFirstVariant_sublist
      (fun v => v.id == vid && v.tenantId == tid) db.variants
    refine ⟨?_, ?_, hBo, hBp, hBq, hBi, hBm, ?_, hD, hE, hG, ?_⟩
    · exact (hsub.map Variant.id).nodup hA
    · exact fun v hv => hBv v (hsub.mem hv)
    · exact fun v hv => hC v (hsub.mem hv)
    · exact fun v hv => hF v (hsub.mem hv)

theorem wf_deleteProduct {db : DB} {tid pid : Nat} {db' : DB}
    (hwf : WF db) (h : deleteProduct db tid pid = .ok db') : WF db' := by
  obtain ⟨hA, hBv, hBo, hBp, hBq, hBi, hBm, hC, hD, hE, hG, hF⟩ := hwf
  simp only [deleteProduct] at h
  split at h
  · simp at h
  · injection h with h
    subst h
    have hsubv := List.filter_sublist
      (p := fun v : Variant => !(v.tenantId == tid && v.productId == pid))
      db.variants
    have hsubp := removeFirstProduct_sublist
      (fun p => p.id == pid && p.tenantId == tid) db.products
    refine ⟨?_, ?_, hBo, hBp, ?_, hBi, hBm, ?_, hD, hE, hG, ?_⟩
    · exact (hsubv.map Variant.id).nodup hA
    · exact fun v hv => hBv v (hsubv.mem hv)
    · exact fun q hq => hBq q (hsubp.mem hq)
    · exact fun v hv => hC v (hsubv.mem hv)
    · exact fun v hv => hF v (hsubv.mem hv)

theorem wf_updateOrderStatus {db : DB} {tid oid : Nat}
    {newStatus : OrderStatus} {db' : DB}
    (hwf : WF db) (h : updateOrderStatus db tid oid newStatus = .ok db') :
    WF db' := by
  obtain ⟨hA, hBv, hBo, hBp, hBq, hBi, hBm, hC, hD, hE, hG, hF⟩ := hwf
  simp only [updateOrderStatus] at h
  split at h
  · simp at h
  · split at h
    · simp at h
    · rename_i o ho
      split at h
      · simp at h
      · split at h
        · simp at h
        · injection h with h
          subst h
          refine ⟨hA, hBv, ?_, hBp, hBq, hBi, hBm, hC, ?_, hE, hG, hF⟩
          · intro o' ho'
            obtain ⟨w, hw, rfl⟩ := List.mem_map.mp ho'
            by_cases hc : (w.id == oid && w.tenantId == tid) = true
            · simpa [hc] using hBo w hw
            · simpa [hc] using hBo w hw
          · intro o' ho'
            obtain ⟨w, hw, rfl⟩ := List.mem_map.mp ho'
            by_cases hc : (w.id == oid && w.tenantId == tid) = true
            · simpa [hc] using hD w hw
            · simpa [hc] using hD w hw

theorem wf_updatePOStatus {db : DB} {tid poid : Nat}
    {newStatus : POStatus} {db' : DB}
    (hwf : WF db) (h : updatePOStatus db tid poid newStatus = .ok db') :
    WF db' := by
  obtain ⟨hA, hBv, hBo, hBp, hBq, hBi, hBm, hC, hD, hE, hG, hF⟩ := hwf
  simp only [updatePOStatus] at h
  split at h
  · simp at h
  · split at h
    · simp at h
    · rename_i po hpo
      split at h
      · injection h with h
        subst h
        refine ⟨hA, hBv, hBo, ?_, hBq, hBi, hBm, hC, hD, ?_, hG, hF⟩
        · intro p' hp'
          obtain ⟨w, hw, rfl⟩ := List.mem_map.mp hp'
          by_cases hc : (w.id == poid && w.tenantId == tid) = true
          · simpa [hc] using hBp w hw
          · simpa [hc] using hBp w hw
        · intro p' hp'
          obtain ⟨w, hw, rfl⟩ := List.mem_map.mp hp'
          by_cases hc : (w.id == poid && w.tenantId == tid) = true
          · simpa [hc] using hE w hw
          · simpa [hc] using hE w hw
      · simp at h

theorem wf_createPurchaseOrder {db : DB} {tid uid supplierId : Nat}
    {items : List POReqItem} {poNumber notes : String}
    {db' : DB} {po : PurchaseOrder}
    (hwf : WF db)
    (h : createPurchaseOrder db tid uid supplierId items poNumber notes =
      .ok (db', po)) : WF db' := by
  obtain ⟨hA, hBv, hBo, hBp, hBq, hBi, hBm, hC, hD, hE, hG, hF⟩ := hwf
  simp only [createPurchaseOrder] at h
  split at h
  · simp at h
  · rename_i hval
    simp only [Except.ok.injEq, Prod.mk.injEq] at h
    obtain ⟨rfl, rfl⟩ := h
    simp only [List.any_eq_true, Bool.or_eq_true, not_or, Bool.or_eq_true,
      decide_eq_true_eq, not_exists, not_and, not_or] at hval
    refine ⟨hA, ?_, ?_, ?_, ?_, ?_, ?_, hC, hD, ?_, hG, ?_⟩
    · exact fun v hv => Nat.lt_succ_of_lt (hBv v hv)
    · exact fun o ho => Nat.lt_succ_of_lt (hBo o ho)
    · intro p hp
      rcases List.mem_append.mp hp with hp | hp
      · exact Nat.lt_succ_of_lt (hBp p hp)
      · rw [List.mem_singleton.mp hp]
        exact Nat.lt_succ_self _
    · exact fun q hq => Nat.lt_succ_of_lt (hBq q hq)
    · exact fun q hq => Nat.lt_succ_of_lt (hBi q hq)
    · exact fun m hm => Nat.lt_succ_of_lt (hBm m hm)
    · intro p hp
      rcases List.mem_append.mp hp with hp | hp
      · exact hE p hp
      · rw [List.mem_singleton.mp hp]
        intro item hitem
        obtain ⟨i, hi, rfl⟩ := List.mem_map.mp hitem
        have := hval.2 i hi
        dsimp
        omega
    · intro v hv
      exact hF v hv

theorem wf_adjustStock {db : DB} {tid uid vid : Nat} {quantity : Int}
    {type : MovementType} {notes : String}
    {db' : DB} {variant : Variant} {movement : StockMovement}
    (hwf : WF db)
    (h : adjustStock db tid uid vid quantity type notes =
      .ok (db', variant, movement)) : WF db' := by
  obtain ⟨hA, hBv, hBo, hBp, hBq, hBi, hBm, hC, hD, hE, hG, hF⟩ := hwf
  simp only [adjustStock] at h
  split at h
  · simp at h
  · split at h
    · simp at h
    · rename_i variant hr1
      simp only [Except.ok.injEq, Prod.mk.injEq] at h
      obtain ⟨rfl, rfl, rfl⟩ := h
      have hr1' := hr1
      rw [fous_fst] at hr1'
      cases hfind : db.variants.find?
          (fun v => v.id == vid && v.tenantId == tid &&
            (if quantity < 0 then -quantity else 0) ≤ v.stock) with
      | none => rw [hfind] at hr1'; cases hr1'
      | some v₀ =>
        rw [hfind] at hr1'
        have hvar : variant = updStock quantity v₀ := by
          simpa using hr1'.symm
        have hfv₀ := List.find?_some hfind
        simp only [Bool.and_eq_true, beq_iff_eq, decide_eq_true_eq] at hfv₀
        have hvid : variant.id = vid := by rw [hvar, updStock_id, hfv₀.1.1]
        have hv₀mem := List.mem_of_find?_eq_some hfind
        have hstep : StockEvolve
            [{ tenantId := tid, variantId := variant.id,
               productId := variant.productId, type := type,
               quantity := quantity,
               previousStock := variant.stock - quantity,
               newStock := variant.stock, reference := "",
               referenceId := none, notes := notes, createdBy := uid }]
            db.variants (findOneAndUpdateStock db.variants
              (fun v => v.id == vid && v.tenantId == tid &&
                (if quantity < 0 then -quantity else 0) ≤ v.stock)
              quantity).2 :=
          stockEvolve_fous hA
            (fun v hv => by
              simp only [Bool.and_eq_true, beq_iff_eq,
                decide_eq_true_eq] at hv
              exact hv.1.1)
            hr1 _ hvid rfl
        refine ⟨?_, ?_, hBo, hBp, hBq, hBi, ?_, ?_, hD, hE, ?_, ?_⟩
        · rw [fous_snd_ids]
          exact hA
        · intro w hw
          rcases fous_snd_mem hw with hmem | ⟨v, hvm, _, rfl⟩
          · exact hBv w hmem
          · rw [updStock_id]
            exact hBv v hvm
        · intro m hm
          rcases List.mem_append.mp hm with hm | hm
          · exact hBm m hm
          · rw [List.mem_singleton.mp hm]
            dsimp
            rw [hvar, updStock_id]
            exact hBv v₀ hv₀mem
        · intro w hw
          rcases fous_snd_mem hw with hmem | ⟨v, hvm, hfv, rfl⟩
          · exact hC w hmem
          · simp only [Bool.and_eq_true, beq_iff_eq,
              decide_eq_true_eq] at hfv
            have hg := hfv.2
            have h0 := hC v hvm
            simp only [updStock]
            split at hg <;> omega
        · intro m hm
          rcases List.mem_append.mp hm with hm | hm
          · exact hG m hm
          · rw [List.mem_singleton.mp hm]
            dsimp
            ring
        · exact ledger_preserved hF hstep rfl rfl rfl

theorem sumFor_map_ref (vid : Nat) (ms : List StockMovement)
    (rf : String) (ri : Option Nat) :
    sumFor vid (ms.map (fun m =>
      { m with reference := rf, referenceId := ri })) = sumFor vid ms := by
  induction ms with
  | nil => rfl
  | cons m rest ih =>
    simp only [List.map_cons, sumFor_cons]
    rw [ih]

theorem stockEvolve_map_ref {ms : List StockMovement}
    {vs vs' : List Variant} (rf : String) (ri : Option Nat)
    (h : StockEvolve ms vs vs') :
    StockEvolve (ms.map (fun m =>
      { m with reference := rf, referenceId := ri })) vs vs' := by
  rw [StockEvolve] at h ⊢
  rw [h]
  apply List.map_congr_left
  intro v _
  rw [sumFor_map_ref]

theorem wf_createOrder {db : DB} {tid uid : Nat} {items : List OrderReqItem}
    {orderNumber customerName customerEmail notes : String}
    {db' : DB} {order : Order}
    (hwf : WF db)
    (h : createOrder db tid uid items orderNumber customerName
      customerEmail notes = .ok (db', order)) : WF db' := by
  obtain ⟨hA, hBv, hBo, hBp, hBq, hBi, hBm, hC, hD, hE, hG, hF⟩ := hwf
  simp only [createOrder] at h
  split at h
  · simp at h
  · rename_i hval
    split at h
    · simp at h
    · rename_i vs₂ ois₂ ms₂ hpoi
      simp only [Except.ok.injEq, Prod.mk.injEq] at h
      obtain ⟨rfl, rfl⟩ := h
      obtain ⟨hev, hnn, hmv, hois, hms⟩ := processOrderItems_ok hA hpoi
      simp only [Bool.or_eq_true, not_or, List.any_eq_true,
        decide_eq_true_eq, not_exists, not_and, not_lt] at hval
      refine ⟨?_, ?_, ?_, ?_, ?_, ?_, ?_, ?_, ?_, hE, ?_, ?_⟩
      · rw [stockEvolve_ids hev]
        exact hA
      · intro w hw
        obtain ⟨v, hv, rfl⟩ := stockEvolve_mem hev hw
        rw [updStock_id]
        exact Nat.lt_succ_of_lt (hBv v hv)
      · intro o ho
        rcases List.mem_append.mp ho with ho | ho
        · exact Nat.lt_succ_of_lt (hBo o ho)
        · rw [List.mem_singleton.mp ho]
          exact Nat.lt_succ_self _
      · exact fun q hq => Nat.lt_succ_of_lt (hBp q hq)
      · exact fun q hq => Nat.lt_succ_of_lt (hBq q hq)
      · exact fun q hq => Nat.lt_succ_of_lt (hBi q hq)
      · intro m hm
        rcases List.mem_append.mp hm with hm | hm
        · exact Nat.lt_succ_of_lt (hBm m hm)
        · obtain ⟨m₀, hm₀, rfl⟩ := List.mem_map.mp hm
          obtain ⟨-, -, hid⟩ := hmv m₀ hm₀
          obtain ⟨v, hv, hveq⟩ := List.mem_map.mp hid
          dsimp
          rw [← hveq]
          exact Nat.lt_succ_of_lt (hBv v hv)
      · exact hnn hC
      · intro o ho
        rcases List.mem_append.mp ho with ho | ho
        · exact hD o ho
        · rw [List.mem_singleton.mp ho]
          intro item hitem
          have hpair : (item.variantId, item.quantity) ∈
              items.map (fun i => (i.variantId, i.quantity)) := by
            rw [← hois]
            exact List.mem_map_of_mem _ hitem
          obtain ⟨i, hi, hieq⟩ := List.mem_map.mp hpair
          have := hval.2 i hi
          have hq : item.quantity = i.quantity := (Prod.mk.injEq _ _ _ _ ▸ hieq).2.symm
          omega
      · intro m hm
        rcases List.mem_append.mp hm with hm | hm
        · exact hG m hm
        · obtain ⟨m₀, hm₀, rfl⟩ := List.mem_map.mp hm
          obtain ⟨hcons, -, -⟩ := hmv m₀ hm₀
          dsimp
          exact hcons
      · exact ledger_preserved hF
          (stockEvolve_map_ref ("Order " ++ orderNumber)
            (some db.nextId) hev) rfl rfl rfl

theorem wf_cancelOrder {db : DB} {tid uid oid : Nat} {reason : String}
    {db' : DB} (hwf : WF db)
    (h : cancelOrder db tid uid oid reason = .ok db') : WF db' := by
  obtain ⟨hA, hBv, hBo, hBp, hBq, hBi, hBm, hC, hD, hE, hG, hF⟩ := hwf
  simp only [cancelOrder] at h
  split at h
  · simp at h
  · rename_i o ho
    split at h
    · simp at h
    · split at h
      · simp at h
      · injection h with h
        subst h
        have homem := List.mem_of_find?_eq_some ho
        obtain ⟨hev, hnn, hmv, hcor⟩ := cancelRestoreItems_spec hA
          (Prod.mk.eta (p := cancelRestoreItems tid uid o.orderNumber o.id
            reason o.items db.variants)).symm
        refine ⟨?_, ?_, ?_, hBp, hBq, hBi, ?_, ?_, ?_, hE, ?_, ?_⟩
        · rw [stockEvolve_ids hev]
          exact hA
        · intro w hw
          obtain ⟨v, hv, rfl⟩ := stockEvolve_mem hev hw
          rw [updStock_id]
          exact hBv v hv
        · intro o' ho'
          obtain ⟨w, hw, rfl⟩ := List.mem_map.mp ho'
          by_cases hc : (w.id == oid && w.tenantId == tid) = true
          · simpa [hc] using hBo w hw
          · simpa [hc] using hBo w hw
        · intro m hm
          rcases List.mem_append.mp hm with hm | hm
          · exact hBm m hm
          · obtain ⟨-, -, -, hid, -⟩ := hmv m hm
            obtain ⟨v, hv, hveq⟩ := List.mem_map.mp hid
            rw [← hveq]
            exact hBv v hv
        · refine hnn ?_ hC
          intro item hitem
          have := hD o homem item hitem
          omega
        · intro o' ho'
          obtain ⟨w, hw, rfl⟩ := List.mem_map.mp ho'
          by_cases hc : (w.id == oid && w.tenantId == tid) = true
          · simpa [hc] using hD w hw
          · simpa [hc] using hD w hw
        · intro m hm
          rcases List.mem_append.mp hm with hm | hm
          · exact hG m hm
          · obtain ⟨hcons, -, -, -, -⟩ := hmv m hm
            exact hcons
        · exact ledger_preserved hF hev rfl rfl rfl

theorem wf_receivePurchaseOrder {db : DB} {tid uid poid : Nat}
    {receivedItems : List ReceiveItem} {db' : DB}
    (hwf : WF db)
    (h : receivePurchaseOrder db tid uid poid receivedItems = .ok db') :
    WF db' := by
  obtain ⟨hA, hBv, hBo, hBp, hBq, hBi, hBm, hC, hD, hE, hG, hF⟩ := hwf
  simp only [receivePurchaseOrder] at h
  split at h
  · simp at h
  · rename_i hval
    split at h
    · simp at h
    · rename_i po hpo
      split at h
      · simp at h
      · rename_i items₂ vs₂ ms₂ hloop
        injection h with h
        subst h
        simp only [Bool.or_eq_true, not_or, List.any_eq_true,
          decide_eq_true_eq, not_exists, not_and, not_or, not_lt] at hval
        have hrecv : ∀ r ∈ receivedItems, 1 ≤ r.quantityReceived := by
          intro r hr
          exact (hval.2 r hr).1
        have hpomem := List.mem_of_find?_eq_some hpo
        obtain ⟨hev, hnn, hmv, hEloop, hFor, hArr⟩ :=
          receiveItemsLoop_ok hA hloop
        refine ⟨?_, ?_, hBo, ?_, hBq, hBi, ?_, ?_, hD, ?_, ?_, ?_⟩
        · rw [stockEvolve_ids hev]
          exact hA
        · intro w hw
          obtain ⟨v, hv, rfl⟩ := stockEvolve_mem hev hw
          rw [updStock_id]
          exact hBv v hv
        · intro p' hp'
          obtain ⟨w, hw, rfl⟩ := List.mem_map.mp hp'
          by_cases hc : (w.id == poid && w.tenantId == tid) = true
          · simpa [hc] using hBp w hw
          · simpa [hc] using hBp w hw
        · intro m hm
          rcases List.mem_append.mp hm with hm | hm
          · exact hBm m hm
          · obtain ⟨-, -, -, hid⟩ := hmv m hm
            obtain ⟨v, hv, hveq⟩ := List.mem_map.mp hid
            rw [← hveq]
            exact hBv v hv
        · exact hnn hrecv hC
        · intro p' hp'
          obtain ⟨w, hw, rfl⟩ := List.mem_map.mp hp'
          by_cases hc : (w.id == poid && w.tenantId == tid) = true
          · simp only [hc, if_true]
            intro item hitem
            exact hEloop hrecv (hE po hpomem) item hitem
          · simpa [hc] using hE w hw
        · intro m hm
          rcases List.mem_append.mp hm with hm | hm
          · exact hG m hm
          · obtain ⟨hcons, -, -, -⟩ := hmv m hm
            exact hcons
        · exact ledger_preserved hF hev rfl rfl rfl

theorem wf_applyOp {db : DB} (hwf : WF db) (op : Op) : WF (applyOp db op) := by
  cases op with
  | createProduct tid name =>
    simp only [applyOp]
    cases hc : createProduct db tid name with
    | ok pr =>
      obtain ⟨db', p⟩ := pr
      exact wf_createProduct hwf hc
    | error e => exact hwf
  | createVariant tid pid sku price costPrice stock lst =>
    simp only [applyOp]
    cases hc : createVariant db tid pid sku price costPrice stock lst with
    | ok pr =>
      obtain ⟨db', v⟩ := pr
      exact wf_createVariant hwf hc
    | error e => exact hwf
  | deleteVariant tid vid =>
    simp only [applyOp]
    cases hc : deleteVariant db tid vid with
    | ok db' => exact wf_deleteVariant hwf hc
    | error e => exact hwf
  | deleteProduct tid pid =>
    simp only [applyOp]
    cases hc : deleteProduct db tid pid with
    | ok db' => exact wf_deleteProduct hwf hc
    | error e => exact hwf
  | createOrder tid uid items orderNumber customerName customerEmail notes =>
    simp only [applyOp]
    cases hc : createOrder db tid uid items orderNumber customerName
        customerEmail notes with
    | ok pr =>
      obtain ⟨db', o⟩ := pr
      exact wf_createOrder hwf hc
    | error e => exact hwf
  | updateOrderStatus tid oid newStatus =>
    simp only [applyOp]
    cases hc : updateOrderStatus db tid oid newStatus with
    | ok db' => exact wf_updateOrderStatus hwf hc
    | error e => exact hwf
  | cancelOrder tid uid oid reason =>
    simp only [applyOp]
    cases hc : cancelOrder db tid uid oid reason with
    | ok db' => exact wf_cancelOrder hwf hc
    | error e => exact hwf
  | adjustStock tid uid vid quantity type notes =>
    simp only [applyOp]
    cases hc : adjustStock db tid uid vid quantity type notes with
    | ok pr =>
      obtain ⟨db', v, m⟩ := pr
      exact wf_adjustStock hwf hc
    | error e => exact hwf
  | createPurchaseOrder tid uid supplierId items poNumber notes =>
    simp only [applyOp]
    cases hc : createPurchaseOrder db tid uid supplierId items poNumber
        notes with
    | ok pr =>
      obtain ⟨db', po⟩ := pr
      exact wf_createPurchaseOrder hwf hc
    | error e => exact hwf
  | updatePOStatus tid poid newStatus =>
    simp only [applyOp]
    cases hc : updatePOStatus db tid poid newStatus with
    | ok db' => exact wf_updatePOStatus hwf hc
    | error e => exact hwf
  | receivePurchaseOrder tid uid poid receivedItems =>
    simp only [applyOp]
    cases hc : receivePurchaseOrder db tid uid poid receivedItems with
    | ok db' => exact wf_receivePurchaseOrder hwf hc
    | error e => exact hwf

theorem wf_empty : WF DB.empty := by decide

theorem wf_runOps (ops : List Op) : WF (runOps ops) := by
  suffices hgen : ∀ db, WF db → WF (ops.foldl applyOp db) from
    hgen DB.empty wf_empty
  induction ops with
  | nil => exact fun db h => h
  | cons op rest ih => exact fun db h => ih _ (wf_applyOp h op)

/-! ### Further lemmas used by the claim theorems -/

theorem sumFor_eq_pairSum (vid : Nat) (ms : List StockMovement) :
    sumFor vid ms = pairSum vid (ms.map (fun m => (m.variantId, m.quantity))) := by
  induction ms with
  | nil => rfl
  | cons m rest ih =>
    simp only [List.map_cons, sumFor_cons, pairSum, List.foldr_cons]
    rw [ih]
    rfl

theorem lookup_after_update {vs : List Variant} {f : Variant → Bool}
    {vid tid : Nat}
    (hnd : (vs.map Variant.id).Nodup)
    (hf : ∀ v, f v = true → (v.id == vid && v.tenantId == tid) = true)
    {v₀ : Variant} (hfind : vs.find? f = some v₀) (d : Int) :
    ((findOneAndUpdateStock vs f d).2).find?
      (fun v => v.id == vid && v.tenantId == tid) = some (updStock d v₀) := by
  obtain ⟨l1, l2, he, hl1, hfu⟩ := fous_decomp hfind d
  have hv₀ := hf v₀ (List.find?_some hfind)
  simp only [Bool.and_eq_true, beq_iff_eq] at hv₀
  subst he
  rw [hfu]
  have hig := hnd
  rw [List.map_append, List.map_cons, List.nodup_middle,
    List.nodup_cons, List.mem_append] at hig
  have hl1' : ∀ x ∈ l1, (x.id == vid && x.tenantId == tid) = false := by
    intro x hx
    by_contra hcon
    have hxp : (x.id == vid && x.tenantId == tid) = true := by
      cases hxb : (x.id == vid && x.tenantId == tid) with
      | true => rfl
      | false => exact absurd hxb hcon
    simp only [Bool.and_eq_true, beq_iff_eq] at hxp
    apply hig.1
    left
    rw [hv₀.1, ← hxp.1]
    exact List.mem_map_of_mem _ hx
  rw [List.find?_append]
  have hnone : l1.find? (fun v => v.id == vid && v.tenantId == tid) = none := by
    rw [List.find?_eq_none]
    intro x hx
    simp [hl1' x hx]
  rw [hnone]
  simp only [Option.none_or]
  apply List.find?_cons_of_pos
  simp only [updStock]
  simp [hv₀.1, hv₀.2]

theorem lookup_evolve {ms : List StockMovement} {vs vs' : List Variant}
    (h : StockEvolve ms vs vs') (vid tid : Nat) :
    vs'.find? (fun v => v.id == vid && v.tenantId == tid) =
      (vs.find? (fun v => v.id == vid && v.tenantId == tid)).map
        (fun v => updStock (sumFor v.id ms) v) := by
  subst h
  induction vs with
  | nil => rfl
  | cons v rest ih =>
    rw [List.map_cons]
    by_cases hc : (v.id == vid && v.tenantId == tid) = true
    · have hc' : ((updStock (sumFor v.id ms) v).id == vid &&
          (updStock (sumFor v.id ms) v).tenantId == tid) = true := hc
      rw [List.find?_cons_of_pos
          (p := fun w : Variant => w.id == vid && w.tenantId == tid) _ hc',
        List.find?_cons_of_pos
          (p := fun w : Variant => w.id == vid && w.tenantId == tid) _ hc]
      rfl
    · have hc' : ¬((updStock (sumFor v.id ms) v).id == vid &&
          (updStock (sumFor v.id ms) v).tenantId == tid) = true := hc
      rw [List.find?_cons_of_neg
          (p := fun w : Variant => w.id == vid && w.tenantId == tid) _ hc',
        List.find?_cons_of_neg
          (p := fun w : Variant => w.id == vid && w.tenantId == tid) _ hc]
      exact ih

theorem runDeductions_nonneg {vid tid : Nat} (amts : List Int)
    (vs : List Variant) (hnn : ∀ v ∈ vs, 0 ≤ v.stock) :
    ∀ w ∈ (runDeductions vid tid amts vs).2, 0 ≤ w.stock := by
  induction amts generalizing vs with
  | nil => simpa [runDeductions] using hnn
  | cons amt rest ih =>
    simp only [runDeductions]
    exact ih _ (attemptDeduct_snd_nonneg hnn)

theorem runDeductions_all_fail {vid tid : Nat} {c : Int} {vs : List Variant}
    (hnone : vs.find? (fun v => v.id == vid && v.tenantId == tid &&
      c ≤ v.stock) = none)
    (amts : List Int) (hc : ∀ a ∈ amts, a = c) :
    (runDeductions vid tid amts vs).1.all (fun b => b == false) = true ∧
    (runDeductions vid tid amts vs).2 = vs := by
  induction amts with
  | nil => exact ⟨rfl, rfl⟩
  | cons a rest ih =>
    have ha : a = c := hc a (List.mem_cons_self a rest)
    subst ha
    have hfail : attemptDeduct vs vid tid a = (none, vs) := by
      rw [attemptDeduct]
      exact fous_of_find?_none hnone _
    simp only [runDeductions, hfail]
    obtain ⟨h1, h2⟩ := ih (fun x hx => hc x (List.mem_cons_of_mem _ hx))
    refine ⟨?_, h2⟩
    simp only [List.all_cons, h1, Option.isSome_none, Bool.and_true]
    rfl

theorem adjustStock_spec {db : DB} {tid uid vid : Nat} {q : Int}
    {ty : MovementType} {notes : String}
    (hA : (db.variants.map Variant.id).Nodup)
    (hty : ty = .adjustment ∨ ty = .ret) :
    (lookupVariant db vid tid = none →
      adjustStock db tid uid vid q ty notes = .error .adjustFailed) ∧
    (∀ v, lookupVariant db vid tid = some v →
      ((if q < 0 then -q else 0) ≤ v.stock →
        ∃ db' m, adjustStock db tid uid vid q ty notes =
          .ok (db', updStock q v, m)) ∧
      (v.stock < (if q < 0 then -q else 0) →
        adjustStock db tid uid vid q ty notes = .error .adjustFailed)) := by
  have hval : (!(ty == MovementType.adjustment || ty == MovementType.ret))
      = false := by
    rcases hty with rfl | rfl <;> rfl
  have hfst := fous_guard_fst hA vid tid
    (fun v => decide ((if q < 0 then -q else 0) ≤ v.stock)) q
  constructor
  · intro hnone
    rw [lookupVariant] at hnone
    simp only [adjustStock, hval, Bool.false_eq_true, if_false]
    rw [hfst, hnone]
  · intro v hv
    rw [lookupVariant] at hv
    constructor
    · intro hguard
      have hdec : decide ((if q < 0 then -q else 0) ≤ v.stock) = true :=
        decide_eq_true hguard
      have hfst' : (findOneAndUpdateStock db.variants
          (fun w => w.id == vid && w.tenantId == tid &&
            decide ((if q < 0 then -q else 0) ≤ w.stock)) q).1 =
          some (updStock q v) := by
        rw [hfst, hv]
        simp [hdec]
      simp only [adjustStock, hval, Bool.false_eq_true, if_false]
      rw [hfst']
      exact ⟨_, _, rfl⟩
    · intro hguard
      have hdec : decide ((if q < 0 then -q else 0) ≤ v.stock) = false := by
        simp only [decide_eq_false_iff_not]
        omega
      have hfst' : (findOneAndUpdateStock db.variants
          (fun w => w.id == vid && w.tenantId == tid &&
            decide ((if q < 0 then -q else 0) ≤ w.stock)) q).1 = none := by
        rw [hfst, hv]
        simp [hdec]
      simp only [adjustStock, hval, Bool.false_eq_true, if_false]
      rw [hfst']

theorem attemptDeduct_spec {vs : List Variant} {vid tid : Nat} {q : Int}
    (hnd : (vs.map Variant.id).Nodup) :
    (attemptDeduct vs vid tid q).1 =
      (match vs.find? (fun v => v.id == vid && v.tenantId == tid) with
      | some v => if q ≤ v.stock then some (updStock (-q) v) else none
      | none => none) := by
  rw [attemptDeduct, fous_guard_fst hnd]
  cases vs.find? (fun v => v.id == vid && v.tenantId == tid) with
  | none => rfl
  | some v =>
    by_cases hg : q ≤ v.stock
    · simp [hg]
    · simp [hg]

/-- C1: a stock mutation with signed delta `d` on a unit with current
quantity `q` (order-creation deduction `d = -quantity`, or manual
adjustment with signed `d`) is applied iff the unit exists for the tenant
and, when `d < 0`, `q ≥ |d|` (for `d ≥ 0` existence suffices); when
applied the resulting quantity is exactly `q + d`; consequently in every
reachable state no unit's quantity on hand is negative. -/
theorem C1_stock_mutation_guard :
    (∀ (db : DB) (tid uid vid : Nat) (d : Int) (ty : MovementType)
        (notes : String), WF db → (ty = .adjustment ∨ ty = .ret) →
      ((lookupVariant db vid tid = none →
        adjustStock db tid uid vid d ty notes = .error .adjustFailed) ∧
      (∀ v, lookupVariant db vid tid = some v →
        ((d < 0 → v.stock < -d →
          adjustStock db tid uid vid d ty notes = .error .adjustFailed) ∧
         (0 ≤ d ∨ -d ≤ v.stock →
          ∃ db' m, adjustStock db tid uid vid d ty notes =
            .ok (db', updStock d v, m) ∧
            (updStock d v).stock = v.stock + d ∧
            0 ≤ (updStock d v).stock))))) ∧
    (∀ (vs : List Variant) (vid tid : Nat) (q : Int),
      (vs.map Variant.id).Nodup →
      (attemptDeduct vs vid tid q).1 =
        (match vs.find? (fun v => v.id == vid && v.tenantId == tid) with
        | some v => if q ≤ v.stock then some (updStock (-q) v) else none
        | none => none)) ∧
    (∀ ops : List Op, ∀ v ∈ (runOps ops).variants, 0 ≤ v.stock) := by
  refine ⟨?_, ?_, ?_⟩
  · intro db tid uid vid d ty notes hwf hty
    have hC := hwf.2.2.2.2.2.2.2.1
    obtain ⟨has1, has2⟩ := @adjustStock_spec db tid uid vid d ty notes
      hwf.1 hty
    refine ⟨has1, ?_⟩
    intro v hv
    obtain ⟨hok, hfail⟩ := has2 v hv
    have h0v : 0 ≤ v.stock := hC v (List.mem_of_find?_eq_some hv)
    constructor
    · intro hd0 hlt
      apply hfail
      rw [if_pos hd0]
      exact hlt
    · intro hor
      have hguard : (if d < 0 then -d else 0) ≤ v.stock := by
        by_cases hd : d < 0
        · rw [if_pos hd]
          rcases hor with h0 | hle
          · omega
          · exact hle
        · rw [if_neg hd]
          exact h0v
      obtain ⟨db', m, heq⟩ := hok hguard
      refine ⟨db', m, heq, by simp [updStock], ?_⟩
      simp only [updStock]
      by_cases hd : d < 0
      · rw [if_pos hd] at hguard
        omega
      · rw [if_neg hd] at hguard
        omega
  · intro vs vid tid q hnd
    exact attemptDeduct_spec hnd
  · intro ops
    exact (wf_runOps ops).2.2.2.2.2.2.2.1

theorem C1_stock_mutation_guard_witness :
    (∃ db' m, adjustStock
        (runOps [Op.createProduct 1 "P", Op.createVariant 1 0 "A" 10 0 5 2])
        1 9 1 (-2) .adjustment "" =
      .ok (db', updStock (-2) ⟨1, 1, 0, "A", 10, 0, 5, 2, true⟩, m) ∧
      (updStock (-2) (⟨1, 1, 0, "A", 10, 0, 5, 2, true⟩ : Variant)).stock =
        5 + (-2) ∧
      0 ≤ (updStock (-2) (⟨1, 1, 0, "A", 10, 0, 5, 2, true⟩ : Variant)).stock) ∧
    (attemptDeduct [(⟨1, 1, 0, "A", 10, 0, 5, 2, true⟩ : Variant)] 1 1 3).1 =
      (match ([(⟨1, 1, 0, "A", 10, 0, 5, 2, true⟩ : Variant)]).find?
          (fun v => v.id == 1 && v.tenantId == 1) with
      | some v => if (3 : Int) ≤ v.stock then some (updStock (-3) v) else none
      | none => none) ∧
    0 ≤ (Variant.mk 1 1 0 "A" 10 0 5 2 true).stock := by
  refine ⟨?_, ?_, ?_⟩
  · exact ((C1_stock_mutation_guard.1
      (runOps [Op.createProduct 1 "P", Op.createVariant 1 0 "A" 10 0 5 2])
      1 9 1 (-2) .adjustment "" (by decide) (Or.inl rfl)).2
      ⟨1, 1, 0, "A", 10, 0, 5, 2, true⟩ (by decide)).2 (Or.inr (by decide))
  · exact C1_stock_mutation_guard.2.1
      [(⟨1, 1, 0, "A", 10, 0, 5, 2, true⟩ : Variant)] 1 1 3 (by decide)
  · exact C1_stock_mutation_guard.2.2
      [Op.createProduct 1 "P", Op.createVariant 1 0 "A" 10 0 5 2]
      ⟨1, 1, 0, "A", 10, 0, 5, 2, true⟩ (by decide)

/-- C2: if any line of an order-creation request fails (unit not found,
or stock below the requested quantity), the whole operation returns an
error and leaves the database exactly as before — no order, no movement,
no stock change, including deductions already applied for earlier lines —
and the error identifies the failing unit (by id when not found, by SKU
with available versus requested quantity when stock is insufficient). -/
theorem C2_order_creation_atomicity :
    ∀ (db : DB) (tid uid : Nat) (items : List OrderReqItem)
      (orderNumber customerName customerEmail notes : String) (e : AppErr),
      createOrder db tid uid items orderNumber customerName customerEmail
        notes = .error e →
      applyOp db (.createOrder tid uid items orderNumber customerName
        customerEmail notes) = db ∧
      (e = .validationFailed ∨
        (∃ i ∈ items, e = .variantNotFound i.variantId) ∨
        (∃ i ∈ items, ∃ sku avail, avail < i.quantity ∧
          e = .insufficientStock sku avail i.quantity)) := by
  intro db tid uid items orderNumber customerName customerEmail notes e h
  constructor
  · simp [applyOp, h]
  · simp only [createOrder] at h
    split at h
    · injection h with h
      exact Or.inl h.symm
    · split at h
      · rename_i e' hpoi
        injection h with h
        subst h
        rcases processOrderItems_error hpoi with h1 | h2
        · exact Or.inr (Or.inl h1)
        · exact Or.inr (Or.inr h2)
      · simp at h

theorem C2_order_creation_atomicity_witness :
    applyOp
      (runOps [Op.createProduct 1 "P", Op.createVariant 1 0 "A" 10 0 5 2,
        Op.createVariant 1 0 "B" 20 0 1 2])
      (.createOrder 1 9 [⟨1, 3⟩, ⟨2, 2⟩] "N" "" "" "") =
      runOps [Op.createProduct 1 "P", Op.createVariant 1 0 "A" 10 0 5 2,
        Op.createVariant 1 0 "B" 20 0 1 2] ∧
    (AppErr.insufficientStock "B" 1 2 = .validationFailed ∨
      (∃ i ∈ [(⟨1, 3⟩ : OrderReqItem), ⟨2, 2⟩],
        AppErr.insufficientStock "B" 1 2 = .variantNotFound i.variantId) ∨
      (∃ i ∈ [(⟨1, 3⟩ : OrderReqItem), ⟨2, 2⟩], ∃ sku avail,
        avail < i.quantity ∧
        AppErr.insufficientStock "B" 1 2 =
          .insufficientStock sku avail i.quantity)) :=
  C2_order_creation_atomicity
    (runOps [Op.createProduct 1 "P", Op.createVariant 1 0 "A" 10 0 5 2,
      Op.createVariant 1 0 "B" 20 0 1 2])
    1 9 [⟨1, 3⟩, ⟨2, 2⟩] "N" "" "" "" (.insufficientStock "B" 1 2)
    (by rfl)

/-- C3 (counterexample): on a unit with stock 5, serialized deduction
attempts for 10 then 3 produce flags [rejected, applied] — an attempt
after a rejected one is applied, so the applied attempts are NOT "exactly
the prefix of attempts (in arrival order) that keeps the quantity ≥ 0":
that prefix is empty here, yet the second attempt is applied. -/
theorem C3_prefix_claim_counterexample :
    (runDeductions 1 1 [10, 3]
      [(⟨1, 1, 0, "A", 10, 0, 5, 2, true⟩ : Variant)]).1 = [false, true] ∧
    flagsDownward (runDeductions 1 1 [10, 3]
      [(⟨1, 1, 0, "A", 10, 0, 5, 2, true⟩ : Variant)]).1 = false := by
  decide

/-- C3 (amended): for N concurrent deductions on one unit serialized by
the storage engine in arrival order: the quantity is never negative at
any point; an attempt is applied iff at its serialization point the unit
exists (for the tenant) with stock at least the attempted amount; when
all attempts deduct one common non-negative amount the applied attempts
do form a prefix of the arrival order; and for a unit with stock 1 and
two concurrent deductions of 1 exactly the first is applied and the
second is rejected. -/
theorem C3_serialized_deductions :
    (∀ (vid tid : Nat) (vs : List Variant) (amts : List Int) (k : Nat),
      (∀ v ∈ vs, 0 ≤ v.stock) →
      ∀ w ∈ (runDeductions vid tid (amts.take k) vs).2, 0 ≤ w.stock) ∧
    (∀ (vid tid : Nat) (vs : List Variant) (amt : Int) (rest : List Int),
      (vs.map Variant.id).Nodup →
      (((runDeductions vid tid (amt :: rest) vs).1.head? = some true) ↔
        (∃ v, vs.find? (fun v => v.id == vid && v.tenantId == tid) = some v ∧
          amt ≤ v.stock))) ∧
    (∀ (vid tid : Nat) (vs : List Variant) (c : Int) (amts : List Int),
      (vs.map Variant.id).Nodup → (∀ v ∈ vs, 0 ≤ v.stock) →
      (∀ a ∈ amts, a = c) →
      flagsDownward (runDeductions vid tid amts vs).1 = true) ∧
    (∀ (vid tid : Nat) (vs : List Variant) (v : Variant),
      (vs.map Variant.id).Nodup →
      vs.find? (fun v => v.id == vid && v.tenantId == tid) = some v →
      v.stock = 1 →
      (runDeductions vid tid [1, 1] vs).1 = [true, false]) := by
  refine ⟨?_, ?_, ?_, ?_⟩
  · intro vid tid vs amts k hnn
    exact runDeductions_nonneg (amts.take k) vs hnn
  · intro vid tid vs amt rest hnd
    simp only [runDeductions, List.head?_cons, Option.some.injEq]
    rw [attemptDeduct, fous_guard_fst hnd]
    cases hfind : vs.find? (fun v => v.id == vid && v.tenantId == tid) with
    | none => simp
    | some v =>
      by_cases hg : amt ≤ v.stock
      · simp [hg]
      · simp [hg]
  · intro vid tid vs c amts hnd hnn hc
    induction amts generalizing vs with
    | nil => rfl
    | cons a rest ih =>
      have ha : a = c := hc a (List.mem_cons_self a rest)
      subst ha
      simp only [runDeductions]
      cases hr : (attemptDeduct vs vid tid a).1 with
      | some v' =>
        simp only [Option.isSome_some]
        have hnd2 : (((attemptDeduct vs vid tid a).2).map Variant.id).Nodup := by
          rw [attemptDeduct, fous_snd_ids]
          exact hnd
        have hnn2 := @attemptDeduct_snd_nonneg vs vid tid a hnn
        exact ih _ hnd2 hnn2 (fun x hx => hc x (List.mem_cons_of_mem _ hx))
      | none =>
        simp only [Option.isSome_none]
        have hnone : vs.find? (fun v => v.id == vid && v.tenantId == tid &&
            a ≤ v.stock) = none := by
          rw [attemptDeduct, fous_fst, Option.map_eq_none'] at hr
          exact hr
        have hsnd : (attemptDeduct vs vid tid a).2 = vs := by
          rw [attemptDeduct, fous_of_find?_none hnone]
        rw [hsnd]
        obtain ⟨hall, -⟩ := runDeductions_all_fail hnone rest
          (fun x hx => hc x (List.mem_cons_of_mem _ hx))
        show flagsDownward (false :: (runDeductions vid tid rest vs).1) = true
        simp only [flagsDownward]
        exact hall
  · intro vid tid vs v hnd hfind hstock
    have hfst1 : (attemptDeduct vs vid tid 1).1 = some (updStock (-1) v) := by
      rw [attemptDeduct_spec hnd, hfind]
      simp [hstock]
    have hg : vs.find? (fun w => w.id == vid && w.tenantId == tid &&
        (1 : Int) ≤ w.stock) = some v := by
      rw [find?_guard_eq hnd vid tid (fun w => decide ((1 : Int) ≤ w.stock)),
        hfind]
      simp [hstock]
    have hsnd_lookup : ((attemptDeduct vs vid tid 1).2).find?
        (fun w => w.id == vid && w.tenantId == tid) =
        some (updStock (-1) v) := by
      rw [attemptDeduct]
      exact lookup_after_update hnd
        (fun w hw => by
          simp only [Bool.and_eq_true, beq_iff_eq, decide_eq_true_eq] at hw ⊢
          exact hw.1)
        hg (-1)
    have hnd2 : ((attemptDeduct vs vid tid 1).2.map Variant.id).Nodup := by
      rw [attemptDeduct, fous_snd_ids]
      exact hnd
    have hfst2 : (attemptDeduct (attemptDeduct vs vid tid 1).2 vid tid 1).1 =
        none := by
      rw [attemptDeduct_spec hnd2, hsnd_lookup]
      have : ¬((1 : Int) ≤ (updStock (-1) v).stock) := by
        simp only [updStock]
        omega
      simp [this]
    simp only [runDeductions, hfst1, hfst2]
    rfl

theorem C3_serialized_deductions_witness :
    (∀ w ∈ (runDeductions 1 1 ([3, 3, 3].take 2)
        [(⟨1, 1, 0, "A", 10, 0, 5, 2, true⟩ : Variant)]).2, 0 ≤ w.stock) ∧
    (((runDeductions 1 1 (3 :: [3])
        [(⟨1, 1, 0, "A", 10, 0, 5, 2, true⟩ : Variant)]).1.head? =
          some true) ↔
      (∃ v, [(⟨1, 1, 0, "A", 10, 0, 5, 2, true⟩ : Variant)].find?
        (fun v => v.id == 1 && v.tenantId == 1) = some v ∧
        (3 : Int) ≤ v.stock)) ∧
    flagsDownward (runDeductions 1 1 [3, 3, 3]
      [(⟨1, 1, 0, "A", 10, 0, 5, 2, true⟩ : Variant)]).1 = true ∧
    (runDeductions 1 1 [1, 1]
      [(⟨1, 1, 0, "A", 10, 0, 1, 2, true⟩ : Variant)]).1 = [true, false] := by
  refine ⟨?_, ?_, ?_, ?_⟩
  · exact C3_serialized_deductions.1 1 1
      [⟨1, 1, 0, "A", 10, 0, 5, 2, true⟩] [3, 3, 3] 2 (by decide)
  · exact C3_serialized_deductions.2.1 1 1
      [⟨1, 1, 0, "A", 10, 0, 5, 2, true⟩] 3 [3] (by decide)
  · exact C3_serialized_deductions.2.2.1 1 1
      [⟨1, 1, 0, "A", 10, 0, 5, 2, true⟩] 3 [3, 3, 3]
      (by decide) (by decide) (by decide)
  · exact C3_serialized_deductions.2.2.2 1 1
      [⟨1, 1, 0, "A", 10, 0, 1, 2, true⟩] ⟨1, 1, 0, "A", 10, 0, 1, 2, true⟩
      (by decide) (by decide) (by decide)

/-- C7 (counterexample): an order whose current status is `pending`
(neither cancelled nor delivered) cannot be set to the non-terminal
target `pending`: the express-validator whitelist
`{confirmed, processing, shipped, delivered}` rejects it with a
validation error, contradicting "any non-terminal target status is
accepted". -/
theorem C7_nonterminal_target_counterexample :
    (∃ o ∈ (runOps [Op.createProduct 1 "P",
        Op.createVariant 1 0 "A" 10 0 5 2,
        Op.createOrder 1 9 [⟨1, 1⟩] "N" "" "" ""]).orders,
      o.id = 2 ∧ o.tenantId = 1 ∧ o.status = .pending ∧
      o.status ≠ .cancelled ∧ o.status ≠ .delivered) ∧
    updateOrderStatus (runOps [Op.createProduct 1 "P",
        Op.createVariant 1 0 "A" 10 0 5 2,
        Op.createOrder 1 9 [⟨1, 1⟩] "N" "" "" ""]) 1 2 .pending =
      .error .validationFailed := by
  constructor
  · decide
  · rfl

/-- C7 (amended): targets outside the validator whitelist
`{confirmed, processing, shipped, delivered}` (i.e. `pending` and
`cancelled`) are rejected with a validation error; for a whitelisted
target the update fails exactly when the order is missing for the tenant
or its current status is `cancelled` or `delivered`, and otherwise sets
the status to the requested value unconditionally — no validation
requires the new status to be the immediate successor of the current
one. -/
theorem C7_order_status_update :
    ∀ (db : DB) (tid oid : Nat) (s : OrderStatus),
      ((s = .pending ∨ s = .cancelled) →
        updateOrderStatus db tid oid s = .error .validationFailed) ∧
      ((s = .confirmed ∨ s = .processing ∨ s = .shipped ∨ s = .delivered) →
        ((db.orders.find? (fun o => o.id == oid && o.tenantId == tid) =
            none →
          updateOrderStatus db tid oid s = .error .orderNotFound) ∧
         (∀ o, db.orders.find? (fun o => o.id == oid && o.tenantId == tid) =
            some o →
          (o.status = .cancelled →
            updateOrderStatus db tid oid s = .error .cannotUpdateCancelled) ∧
          (o.status ≠ .cancelled → o.status = .delivered →
            updateOrderStatus db tid oid s = .error .cannotUpdateDelivered) ∧
          (o.status ≠ .cancelled → o.status ≠ .delivered →
            ∃ db', updateOrderStatus db tid oid s = .ok db' ∧
              db'.orders = db.orders.map (fun x =>
                if x.id == oid && x.tenantId == tid then
                  { x with status := s } else x) ∧
              db'.variants = db.variants ∧
              db'.movements = db.movements)))) := by
  intro db tid oid s
  constructor
  · intro hs
    rcases hs with rfl | rfl <;> rfl
  · intro hs
    have hc : (!(s == OrderStatus.confirmed || s == OrderStatus.processing ||
        s == OrderStatus.shipped || s == OrderStatus.delivered)) = false := by
      rcases hs with rfl | rfl | rfl | rfl <;> rfl
    constructor
    · intro hfind
      simp only [updateOrderStatus, hc, Bool.false_eq_true, if_false]
      rw [hfind]
    · intro o hfind
      refine ⟨?_, ?_, ?_⟩
      · intro hcanc
        simp only [updateOrderStatus, hc, Bool.false_eq_true, if_false]
        rw [hfind]
        simp [hcanc]
      · intro hnc hdel
        simp only [updateOrderStatus, hc, Bool.false_eq_true, if_false]
        rw [hfind]
        simp [hnc, hdel]
      · intro hnc hnd2
        simp only [updateOrderStatus, hc, Bool.false_eq_true, if_false]
        rw [hfind]
        simp only [hnc, hnd2, if_false]
        exact ⟨_, rfl, rfl, rfl, rfl⟩

theorem C7_order_status_update_witness :
    (updateOrderStatus (runOps [Op.createProduct 1 "P",
        Op.createVariant 1 0 "A" 10 0 5 2,
        Op.createOrder 1 9 [⟨1, 1⟩] "N" "" "" ""]) 1 2 .cancelled =
      .error .validationFailed) ∧
    (∃ db', updateOrderStatus (runOps [Op.createProduct 1 "P",
        Op.createVariant 1 0 "A" 10 0 5 2,
        Op.createOrder 1 9 [⟨1, 1⟩] "N" "" "" ""]) 1 2 .delivered =
      .ok db' ∧
      db'.orders = (runOps [Op.createProduct 1 "P",
        Op.createVariant 1 0 "A" 10 0 5 2,
        Op.createOrder 1 9 [⟨1, 1⟩] "N" "" "" ""]).orders.map (fun x =>
          if x.id == 2 && x.tenantId == 1 then
            { x with status := OrderStatus.delivered } else x) ∧
      db'.variants = (runOps [Op.createProduct 1 "P",
        Op.createVariant 1 0 "A" 10 0 5 2,
        Op.createOrder 1 9 [⟨1, 1⟩] "N" "" "" ""]).variants ∧
      db'.movements = (runOps [Op.createProduct 1 "P",
        Op.createVariant 1 0 "A" 10 0 5 2,
        Op.createOrder 1 9 [⟨1, 1⟩] "N" "" "" ""]).movements) := by
  constructor
  · exact (C7_order_status_update (runOps [Op.createProduct 1 "P",
      Op.createVariant 1 0 "A" 10 0 5 2,
      Op.createOrder 1 9 [⟨1, 1⟩] "N" "" "" ""]) 1 2 .cancelled).1
      (Or.inr rfl)
  · exact (((C7_order_status_update (runOps [Op.createProduct 1 "P",
        Op.createVariant 1 0 "A" 10 0 5 2,
        Op.createOrder 1 9 [⟨1, 1⟩] "N" "" "" ""]) 1 2 .delivered).2
      (Or.inr (Or.inr (Or.inr rfl)))).2
      ⟨2, 1, "N", .pending, [⟨1, 0, "P", "A", 1, 10, 10⟩], 10, "", "", "",
        9, false, ""⟩
      (by decide)).2.2 (by decide) (by decide)

/-- C9 (counterexample): from the empty database, create a variant,
adjust its stock (which records a Movement referencing it), then call
`DELETE /products/variants/:id`: the delete succeeds, the variants
collection becomes empty, and the movement still references the deleted
variant id — a reachable state in which a Movement's variantId refers to
no existing Variant, contradicting the claim. -/
theorem C9_hard_delete_counterexample :
    (runOps [Op.createProduct 1 "P", Op.createVariant 1 0 "A" 10 0 5 2,
      Op.adjustStock 1 9 1 (-2) .adjustment "",
      Op.deleteVariant 1 1]).variants = [] ∧
    ∃ m ∈ (runOps [Op.createProduct 1 "P",
      Op.createVariant 1 0 "A" 10 0 5 2,
      Op.adjustStock 1 9 1 (-2) .adjustment "",
      Op.deleteVariant 1 1]).movements,
      m.variantId = 1 ∧
      ∀ v ∈ (runOps [Op.createProduct 1 "P",
        Op.createVariant 1 0 "A" 10 0 5 2,
        Op.adjustStock 1 9 1 (-2) .adjustment "",
        Op.deleteVariant 1 1]).variants, v.id ≠ m.variantId := by
  decide

/-- C9 (amended): `DELETE /products/variants/:id` hard-deletes the
variant whenever it exists for the tenant — there is no check against
Orders or Movements that reference it — while the movement, order and
purchase-order history is left in place, so references from historical
records may dangle afterwards; the route fails only when the variant is
absent for the tenant. -/
theorem C9_variant_hard_delete :
    ∀ (db : DB) (tid vid : Nat),
      (∀ v, lookupVariant db vid tid = some v →
        deleteVariant db tid vid = .ok { db with
          variants := removeFirstVariant
            (fun w => w.id == vid && w.tenantId == tid) db.variants }) ∧
      (lookupVariant db vid tid = none →
        deleteVariant db tid vid = .error (.variantNotFound vid)) ∧
      (∀ db', deleteVariant db tid vid = .ok db' →
        db'.movements = db.movements ∧ db'.orders = db.orders ∧
        db'.pos = db.pos) := by
  intro db tid vid
  refine ⟨?_, ?_, ?_⟩
  · intro v hv
    rw [lookupVariant] at hv
    simp only [deleteVariant]
    rw [hv]
  · intro hnone
    rw [lookupVariant] at hnone
    simp only [deleteVariant]
    rw [hnone]
  · intro db' h
    simp only [deleteVariant] at h
    split at h
    · simp at h
    · injection h with h
      subst h
      exact ⟨rfl, rfl, rfl⟩

theorem C9_variant_hard_delete_witness :
    deleteVariant (runOps [Op.createProduct 1 "P",
      Op.createVariant 1 0 "A" 10 0 5 2,
      Op.adjustStock 1 9 1 (-2) .adjustment ""]) 1 1 =
      .ok { (runOps [Op.createProduct 1 "P",
        Op.createVariant 1 0 "A" 10 0 5 2,
        Op.adjustStock 1 9 1 (-2) .adjustment ""]) with
        variants := removeFirstVariant
          (fun w => w.id == 1 && w.tenantId == 1)
          (runOps [Op.createProduct 1 "P",
            Op.createVariant 1 0 "A" 10 0 5 2,
            Op.adjustStock 1 9 1 (-2) .adjustment ""]).variants } := by
  exact (C9_variant_hard_delete (runOps [Op.createProduct 1 "P",
    Op.createVariant 1 0 "A" 10 0 5 2,
    Op.adjustStock 1 9 1 (-2) .adjustment ""]) 1 1).1
    ⟨1, 1, 0, "A", 10, 0, 3, 2, true⟩ (by decide)

/-- C10: a receive call that passes all per-line validations still
succeeds when the matched PO line's variantId has no Variant document
for the tenant: the PO line's quantityReceived is incremented and the
status recomputed, but the stock collection and the movement ledger are
untouched and no NotFound error is raised for the missing variant. -/
theorem C10_receive_missing_variant :
    ∀ (db : DB) (tid uid poid : Nat) (r : ReceiveItem)
      (po : PurchaseOrder) (poItem : POItem),
      1 ≤ r.quantityReceived →
      (∀ p, r.actualUnitPrice = some p → 0 ≤ p) →
      db.pos.find? (fun p => p.id == poid && p.tenantId == tid &&
        (p.status == POStatus.confirmed ||
         p.status == POStatus.partiallyReceived)) = some po →
      po.items.find? (fun i => i.variantId == r.variantId) = some poItem →
      r.quantityReceived ≤ poItem.quantityOrdered - poItem.quantityReceived →
      lookupVariant db r.variantId tid = none →
      ∃ db', receivePurchaseOrder db tid uid poid [r] = .ok db' ∧
        db'.variants = db.variants ∧
        db'.movements = db.movements ∧
        ∃ po' ∈ db'.pos, po'.id = po.id ∧
          po'.items = updateFirstPOItem r.variantId r.quantityReceived
            r.actualUnitPrice po.items ∧
          (po'.status = .received ∨ po'.status = .partiallyReceived) := by
  intro db tid uid poid r po poItem hq1 haup hpo hfind hrem hlookup
  have hvc : ([r].isEmpty || [r].any (fun x => x.quantityReceived < 1 ||
      (match x.actualUnitPrice with
        | some p => p < 0
        | none => false))) = false := by
    cases har : r.actualUnitPrice with
    | none => simp [har]; omega
    | some p =>
      have := haup p har
      simp [har]
      omega
  have hfous : findOneAndUpdateStock db.variants
      (fun v => v.id == r.variantId && v.tenantId == tid)
      r.quantityReceived = (none, db.variants) := by
    rw [lookupVariant] at hlookup
    exact fous_of_find?_none hlookup _
  have hloop : receiveItemsLoop tid uid po.poNumber po.id [r] po.items
      db.variants = .ok (updateFirstPOItem r.variantId r.quantityReceived
        r.actualUnitPrice po.items, db.variants, []) := by
    simp only [receiveItemsLoop, hfind, hfous]
    rw [if_neg (by omega)]
  simp only [receivePurchaseOrder, hvc, Bool.false_eq_true, if_false,
    hpo, hloop]
  have hpomem := List.mem_of_find?_eq_some hpo
  have hpoc := List.find?_some hpo
  simp only [Bool.and_eq_true, Bool.or_eq_true, beq_iff_eq] at hpoc
  refine ⟨_, rfl, rfl, by simp, ?_⟩
  refine ⟨_, List.mem_map_of_mem _ hpomem, ?_⟩
  have hcond : (po.id == poid && po.tenantId == tid) = true := by
    simp [hpoc.1.1, hpoc.1.2]
  rw [hcond]
  simp only [if_true]
  refine ⟨?_, ?_, ?_⟩
  · simp [hpoc.1.1]
  · simp
  · split
    · exact Or.inl rfl
    · exact Or.inr rfl

theorem C10_receive_missing_variant_witness :
    ∃ db', receivePurchaseOrder (runOps [Op.createProduct 1 "P",
        Op.createVariant 1 0 "A" 10 0 5 2,
        Op.createPurchaseOrder 1 9 3 [⟨1, 0, 4, 2⟩] "PO-1" "",
        Op.updatePOStatus 1 2 .sent,
        Op.updatePOStatus 1 2 .confirmed,
        Op.deleteVariant 1 1]) 1 9 2 [⟨1, 3, none⟩] = .ok db' ∧
      db'.variants = (runOps [Op.createProduct 1 "P",
        Op.createVariant 1 0 "A" 10 0 5 2,
        Op.createPurchaseOrder 1 9 3 [⟨1, 0, 4, 2⟩] "PO-1" "",
        Op.updatePOStatus 1 2 .sent,
        Op.updatePOStatus 1 2 .confirmed,
        Op.deleteVariant 1 1]).variants ∧
      db'.movements = (runOps [Op.createProduct 1 "P",
        Op.createVariant 1 0 "A" 10 0 5 2,
        Op.createPurchaseOrder 1 9 3 [⟨1, 0, 4, 2⟩] "PO-1" "",
        Op.updatePOStatus 1 2 .sent,
        Op.updatePOStatus 1 2 .confirmed,
        Op.deleteVariant 1 1]).movements ∧
      ∃ po' ∈ db'.pos,
        po'.id = (⟨2, 1, "PO-1", 3, .confirmed, [⟨1, 0, 4, 0, 2, none⟩],
          8, "", 9⟩ : PurchaseOrder).id ∧
        po'.items = updateFirstPOItem 1 3 none
          (⟨2, 1, "PO-1", 3, .confirmed, [⟨1, 0, 4, 0, 2, none⟩],
            8, "", 9⟩ : PurchaseOrder).items ∧
        (po'.status = .received ∨ po'.status = .partiallyReceived) :=
  C10_receive_missing_variant (runOps [Op.createProduct 1 "P",
      Op.createVariant 1 0 "A" 10 0 5 2,
      Op.createPurchaseOrder 1 9 3 [⟨1, 0, 4, 2⟩] "PO-1" "",
      Op.updatePOStatus 1 2 .sent,
      Op.updatePOStatus 1 2 .confirmed,
      Op.deleteVariant 1 1]) 1 9 2 ⟨1, 3, none⟩
    ⟨2, 1, "PO-1", 3, .confirmed, [⟨1, 0, 4, 0, 2, none⟩], 8, "", 9⟩
    ⟨1, 0, 4, 0, 2, none⟩
    (by decide) (by intro p hp; cases hp) (by decide) (by decide)
    (by decide) (by decide)

theorem updateFirstPOItem_variantId_mem {vid : Nat} {q : Int}
    {aup : Option Int} :
    ∀ {items : List POItem} {j : POItem},
      j ∈ updateFirstPOItem vid q aup items →
      ∃ i ∈ items, j.variantId = i.variantId := by
  intro items
  induction items with
  | nil => intro j hj; cases hj
  | cons i rest ih =>
    intro j hj
    simp only [updateFirstPOItem] at hj
    split at hj
    · rcases List.mem_cons.mp hj with rfl | hj
      · exact ⟨i, List.mem_cons_self i rest, rfl⟩
      · exact ⟨j, List.mem_cons_of_mem _ hj, rfl⟩
    · rcases List.mem_cons.mp hj with rfl | hj
      · exact ⟨j, List.mem_cons_self j rest, rfl⟩
      · obtain ⟨i₀, hi₀, he⟩ := ih hj
        exact ⟨i₀, List.mem_cons_of_mem _ hi₀, he⟩

theorem receiveItemsLoop_matches
    {tid uid : Nat} {poNumber : String} {poid : Nat}
    {recvs : List ReceiveItem} {items items' : List POItem}
    {vs vs' : List Variant} {ms : List StockMovement}
    (h : receiveItemsLoop tid uid poNumber poid recvs items vs =
      .ok (items', vs', ms)) :
    ∀ r ∈ recvs, ∃ item ∈ items, item.variantId = r.variantId := by
  induction recvs generalizing items vs items' vs' ms with
  | nil => intro r hr; cases hr
  | cons received rest ih =>
    simp only [receiveItemsLoop] at h
    split at h
    · simp at h
    · rename_i poItem hfind
      split at h
      · simp at h
      · split at h
        · simp at h
        · rename_i items₂ vs₂ ms₂ hrec
          intro r hr
          rcases List.mem_cons.mp hr with rfl | hr
          · refine ⟨poItem, List.mem_of_find?_eq_some hfind, ?_⟩
            have := List.find?_some hfind
            simpa using this
          · obtain ⟨j, hj, hje⟩ := ih hrec r hr
            obtain ⟨i₀, hi₀, he⟩ := updateFirstPOItem_variantId_mem hj
            exact ⟨i₀, hi₀, by rw [← he, hje]⟩

theorem receivePurchaseOrder_ok_shape {db : DB} {tid uid poid : Nat}
    {recvs : List ReceiveItem} {db' : DB}
    (h : receivePurchaseOrder db tid uid poid recvs = .ok db') :
    ∃ po items₂ vs₂ ms₂,
      (recvs.isEmpty || recvs.any (fun r => r.quantityReceived < 1 ||
        (match r.actualUnitPrice with
          | some p => p < 0
          | none => false))) = false ∧
      db.pos.find? (fun p => p.id == poid && p.tenantId == tid &&
        (p.status == POStatus.confirmed ||
         p.status == POStatus.partiallyReceived)) = some po ∧
      receiveItemsLoop tid uid po.poNumber po.id recvs po.items
        db.variants = .ok (items₂, vs₂, ms₂) ∧
      db' = { db with
              variants := vs₂
              movements := db.movements ++ ms₂
              pos := db.pos.map (fun p =>
                if p.id == poid && p.tenantId == tid then
                  { p with items := items₂,
                           status := if items₂.all (fun item =>
                               item.quantityOrdered ≤ item.quantityReceived)
                             then POStatus.received
                             else POStatus.partiallyReceived,
                           totalAmount := poTotal items₂ }
                else p) } := by
  simp only [receivePurchaseOrder] at h
  split at h
  · simp at h
  · rename_i hval
    split at h
    · simp at h
    · rename_i po hpo
      split at h
      · simp at h
      · rename_i items₂ vs₂ ms₂ hloop
        injection h with h
        exact ⟨po, items₂, vs₂, ms₂, Bool.eq_false_iff.mpr hval, hpo,
          hloop, h.symm⟩

/-- C6: given a request body that passes validation (non-empty, every
`quantityReceived ≥ 1`, `actualUnitPrice ≥ 0` when present), the receive
call returns the "PO not found or not in receivable status" error exactly
when no purchase order exists for the id and tenant with status
`confirmed` or `partially_received`; every rejection is that error, the
no-matching-PO-line error, or the over-receipt error reporting the
remaining amount (which is below the requested quantity), and leaves the
database unchanged; and on success every received line matched a PO line
by `variantId`. -/
theorem C6_receive_rejection :
    ∀ (db : DB) (tid uid poid : Nat) (recvs : List ReceiveItem),
      recvs ≠ [] →
      (∀ r ∈ recvs, 1 ≤ r.quantityReceived ∧
        ∀ p, r.actualUnitPrice = some p → 0 ≤ p) →
      ((receivePurchaseOrder db tid uid poid recvs =
          .error .poNotReceivable ↔
        db.pos.find? (fun p => p.id == poid && p.tenantId == tid &&
          (p.status == POStatus.confirmed ||
           p.status == POStatus.partiallyReceived)) = none) ∧
      (∀ e, receivePurchaseOrder db tid uid poid recvs = .error e →
        (e = .poNotReceivable ∨ e = .itemNotInPO ∨
          ∃ r ∈ recvs, ∃ rem, rem < r.quantityReceived ∧
            e = .overReceipt r.quantityReceived rem) ∧
        applyOp db (.receivePurchaseOrder tid uid poid recvs) = db) ∧
      (∀ db', receivePurchaseOrder db tid uid poid recvs = .ok db' →
        ∃ po, db.pos.find? (fun p => p.id == poid && p.tenantId == tid &&
          (p.status == POStatus.confirmed ||
           p.status == POStatus.partiallyReceived)) = some po ∧
        ∀ r ∈ recvs, ∃ item ∈ po.items, item.variantId = r.variantId)) := by
  intro db tid uid poid recvs hne hcond
  have hval : (recvs.isEmpty || recvs.any (fun x => x.quantityReceived < 1 ||
      (match x.actualUnitPrice with
        | some p => p < 0
        | none => false))) = false := by
    cases recvs with
    | nil => exact absurd rfl hne
    | cons a l =>
      simp only [List.isEmpty_cons, Bool.false_or, List.any_eq_false]
      intro r hr
      obtain ⟨h1, h2⟩ := hcond r hr
      cases har : r.actualUnitPrice with
      | none => simp [har]; omega
      | some p =>
        have := h2 p har
        simp [har]
        omega
  refine ⟨?_, ?_, ?_⟩
  · constructor
    · intro h
      cases hfind : db.pos.find? (fun p => p.id == poid && p.tenantId == tid &&
          (p.status == POStatus.confirmed ||
           p.status == POStatus.partiallyReceived)) with
      | none => rfl
      | some po =>
        exfalso
        simp only [receivePurchaseOrder, hval, Bool.false_eq_true, if_false,
          hfind] at h
        split at h
        · rename_i e' hrec
          injection h with h
          rcases receiveItemsLoop_error hrec with he | ⟨r, hr, rem, hrem, he⟩
          · rw [he] at h; cases h
          · rw [he] at h; cases h
        · simp at h
    · intro hnone
      simp only [receivePurchaseOrder, hval, Bool.false_eq_true, if_false,
        hnone]
  · intro e h
    constructor
    · simp only [receivePurchaseOrder, hval, Bool.false_eq_true, if_false]
        at h
      split at h
      · injection h with h
        exact Or.inl h.symm
      · rename_i po hpo
        split at h
        · rename_i e' hrec
          injection h with h
          subst h
          rcases receiveItemsLoop_error hrec with he | ⟨r, hr, rem, hrem, he⟩
          · exact Or.inr (Or.inl he)
          · exact Or.inr (Or.inr ⟨r, hr, rem, hrem, he⟩)
        · simp at h
    · simp [applyOp, h]
  · intro db' hok
    obtain ⟨po, items₂, vs₂, ms₂, -, hpo, hloop, -⟩ :=
      receivePurchaseOrder_ok_shape hok
    exact ⟨po, hpo, receiveItemsLoop_matches hloop⟩

theorem C6_receive_rejection_witness :
    receivePurchaseOrder (runOps [Op.createProduct 1 "P",
        Op.createVariant 1 0 "A" 10 0 5 2,
        Op.createPurchaseOrder 1 9 3 [⟨1, 0, 4, 2⟩] "PO-1" "",
        Op.updatePOStatus 1 2 .sent, Op.updatePOStatus 1 2 .confirmed])
      1 9 99 [⟨1, 2, none⟩] = .error .poNotReceivable ∧
    ((AppErr.overReceipt 5 4 = .poNotReceivable ∨
        AppErr.overReceipt 5 4 = .itemNotInPO ∨
        ∃ r ∈ [(⟨1, 5, none⟩ : ReceiveItem)], ∃ rem,
          rem < r.quantityReceived ∧
          AppErr.overReceipt 5 4 = .overReceipt r.quantityReceived rem) ∧
      applyOp (runOps [Op.createProduct 1 "P",
          Op.createVariant 1 0 "A" 10 0 5 2,
          Op.createPurchaseOrder 1 9 3 [⟨1, 0, 4, 2⟩] "PO-1" "",
          Op.updatePOStatus 1 2 .sent, Op.updatePOStatus 1 2 .confirmed])
        (.receivePurchaseOrder 1 9 2 [⟨1, 5, none⟩]) =
        runOps [Op.createProduct 1 "P",
          Op.createVariant 1 0 "A" 10 0 5 2,
          Op.createPurchaseOrder 1 9 3 [⟨1, 0, 4, 2⟩] "PO-1" "",
          Op.updatePOStatus 1 2 .sent, Op.updatePOStatus 1 2 .confirmed]) ∧
    (∃ po, (runOps [Op.createProduct 1 "P",
        Op.createVariant 1 0 "A" 10 0 5 2,
        Op.createPurchaseOrder 1 9 3 [⟨1, 0, 4, 2⟩] "PO-1" "",
        Op.updatePOStatus 1 2 .sent,
        Op.updatePOStatus 1 2 .confirmed]).pos.find?
          (fun p => p.id == 2 && p.tenantId == 1 &&
            (p.status == POStatus.confirmed ||
             p.status == POStatus.partiallyReceived)) = some po ∧
      ∀ r ∈ [(⟨1, 4, none⟩ : ReceiveItem)], ∃ item ∈ po.items,
        item.variantId = r.variantId) := by
  refine ⟨?_, ?_, ?_⟩
  · exact (C6_receive_rejection (runOps [Op.createProduct 1 "P",
        Op.createVariant 1 0 "A" 10 0 5 2,
        Op.createPurchaseOrder 1 9 3 [⟨1, 0, 4, 2⟩] "PO-1" "",
        Op.updatePOStatus 1 2 .sent, Op.updatePOStatus 1 2 .confirmed])
      1 9 99 [⟨1, 2, none⟩] (by decide)
      (by
        intro r hr
        simp only [List.mem_singleton] at hr
        subst hr
        exact ⟨by decide, fun p hp => by cases hp⟩)).1.mpr (by rfl)
  · exact (C6_receive_rejection (runOps [Op.createProduct 1 "P",
        Op.createVariant 1 0 "A" 10 0 5 2,
        Op.createPurchaseOrder 1 9 3 [⟨1, 0, 4, 2⟩] "PO-1" "",
        Op.updatePOStatus 1 2 .sent, Op.updatePOStatus 1 2 .confirmed])
      1 9 2 [⟨1, 5, none⟩] (by decide)
      (by
        intro r hr
        simp only [List.mem_singleton] at hr
        subst hr
        exact ⟨by decide, fun p hp => by cases hp⟩)).2.1
      (.overReceipt 5 4) (by rfl)
  · exact (C6_receive_rejection (runOps [Op.createProduct 1 "P",
        Op.createVariant 1 0 "A" 10 0 5 2,
        Op.createPurchaseOrder 1 9 3 [⟨1, 0, 4, 2⟩] "PO-1" "",
        Op.updatePOStatus 1 2 .sent, Op.updatePOStatus 1 2 .confirmed])
      1 9 2 [⟨1, 4, none⟩] (by decide)
      (by
        intro r hr
        simp only [List.mem_singleton] at hr
        subst hr
        exact ⟨by decide, fun p hp => by cases hp⟩)).2.2
      (runOps [Op.createProduct 1 "P",
        Op.createVariant 1 0 "A" 10 0 5 2,
        Op.createPurchaseOrder 1 9 3 [⟨1, 0, 4, 2⟩] "PO-1" "",
        Op.updatePOStatus 1 2 .sent, Op.updatePOStatus 1 2 .confirmed,
        Op.receivePurchaseOrder 1 9 2 [⟨1, 4, none⟩]]) (by rfl)

/-- C5: every operation preserves the purchase-order line invariant
`0 ≤ quantityReceived ≤ quantityOrdered`, and after a successful receive
call the targeted purchase order's status is `received` iff every line
has `quantityReceived` equal to `quantityOrdered`, and otherwise it is
`partially_received` with some line having received a positive
quantity. -/
theorem C5_po_receive_status :
    ∀ (db : DB) (tid uid poid : Nat) (recvs : List ReceiveItem) (db' : DB),
      WF db →
      receivePurchaseOrder db tid uid poid recvs = .ok db' →
      (∀ op : Op, ∀ p ∈ (applyOp db op).pos, ∀ item ∈ p.items,
        0 ≤ item.quantityReceived ∧
        item.quantityReceived ≤ item.quantityOrdered) ∧
      (∀ p ∈ db'.pos, ∀ item ∈ p.items,
        0 ≤ item.quantityReceived ∧
        item.quantityReceived ≤ item.quantityOrdered) ∧
      ∃ po' ∈ db'.pos, po'.id = poid ∧ po'.tenantId = tid ∧
        (po'.status = .received ∨ po'.status = .partiallyReceived) ∧
        (po'.status = .received ↔
          ∀ item ∈ po'.items,
            item.quantityReceived = item.quantityOrdered) ∧
        (po'.status = .partiallyReceived →
          ∃ item ∈ po'.items, 1 ≤ item.quantityReceived) := by
  intro db tid uid poid recvs db' hwf hok
  refine ⟨fun op => (wf_applyOp hwf op).2.2.2.2.2.2.2.2.2.1,
    (wf_receivePurchaseOrder hwf hok).2.2.2.2.2.2.2.2.2.1, ?_⟩
  obtain ⟨po, items₂, vs₂, ms₂, hval, hpo, hloop, hdb⟩ :=
    receivePurchaseOrder_ok_shape hok
  subst hdb
  have hpomem := List.mem_of_find?_eq_some hpo
  have hpoc := List.find?_some hpo
  simp only [Bool.and_eq_true, Bool.or_eq_true, beq_iff_eq] at hpoc
  rw [Bool.or_eq_false_iff] at hval
  have hrecv : ∀ r ∈ recvs, 1 ≤ r.quantityReceived := by
    intro r hr
    have h := List.any_eq_false.mp hval.2 r hr
    simp only [Bool.or_eq_true, not_or, decide_eq_true_eq] at h
    have h1 := h.1
    omega
  have hne : recvs ≠ [] := by
    intro hnil
    rw [hnil] at hval
    exact absurd hval.1 (by simp)
  have hE := hwf.2.2.2.2.2.2.2.2.2.1
  obtain ⟨hev, hnn, hmv, hEloop, hFor, hArr⟩ := receiveItemsLoop_ok hwf.1 hloop
  have hbounds : ∀ item ∈ items₂, 0 ≤ item.quantityReceived ∧
      item.quantityReceived ≤ item.quantityOrdered :=
    hEloop hrecv (hE po hpomem)
  refine ⟨_, List.mem_map_of_mem _ hpomem, ?_⟩
  have hcond : (po.id == poid && po.tenantId == tid) = true := by
    simp [hpoc.1.1, hpoc.1.2]
  rw [hcond]
  simp only [if_true]
  refine ⟨?_, ?_, ?_, ?_, ?_⟩
  · simp [hpoc.1.1]
  · simp [hpoc.1.2]
  · by_cases hall : (items₂.all (fun item =>
        item.quantityOrdered ≤ item.quantityReceived)) = true
    · left
      simp [hall]
    · right
      simp [hall]
  · by_cases hall : (items₂.all (fun item =>
        item.quantityOrdered ≤ item.quantityReceived)) = true
    · constructor
      · intro _ item hitem
        have h1 := List.all_eq_true.mp hall item hitem
        simp only [decide_eq_true_eq] at h1
        have h2 := (hbounds item hitem).2
        omega
      · intro _
        simp [hall]
    · rw [Bool.not_eq_true] at hall
      constructor
      · intro h
        simp [hall] at h
      · intro hfull
        exfalso
        rw [List.all_eq_false] at hall
        obtain ⟨item, hitem, hlt⟩ := hall
        simp only [decide_eq_true_eq] at hlt
        have := hfull item hitem
        omega
  · intro _
    cases recvs with
    | nil => exact absurd rfl hne
    | cons a l =>
      have := hArr hrecv (fun item hitem => (hE po hpomem item hitem).1)
        a (List.mem_cons_self a l)
      simpa using this

theorem C5_po_receive_status_witness :
    (∀ op : Op, ∀ p ∈ (applyOp (runOps [Op.createProduct 1 "P",
        Op.createVariant 1 0 "A" 10 0 5 2,
        Op.createPurchaseOrder 1 9 3 [⟨1, 0, 4, 2⟩] "PO-1" "",
        Op.updatePOStatus 1 2 .sent,
        Op.updatePOStatus 1 2 .confirmed]) op).pos, ∀ item ∈ p.items,
      0 ≤ item.quantityReceived ∧
      item.quantityReceived ≤ item.quantityOrdered) ∧
    (∀ p ∈ (runOps [Op.createProduct 1 "P",
        Op.createVariant 1 0 "A" 10 0 5 2,
        Op.createPurchaseOrder 1 9 3 [⟨1, 0, 4, 2⟩] "PO-1" "",
        Op.updatePOStatus 1 2 .sent, Op.updatePOStatus 1 2 .confirmed,
        Op.receivePurchaseOrder 1 9 2 [⟨1, 4, none⟩]]).pos,
      ∀ item ∈ p.items,
      0 ≤ item.quantityReceived ∧
      item.quantityReceived ≤ item.quantityOrdered) ∧
    ∃ po' ∈ (runOps [Op.createProduct 1 "P",
        Op.createVariant 1 0 "A" 10 0 5 2,
        Op.createPurchaseOrder 1 9 3 [⟨1, 0, 4, 2⟩] "PO-1" "",
        Op.updatePOStatus 1 2 .sent, Op.updatePOStatus 1 2 .confirmed,
        Op.receivePurchaseOrder 1 9 2 [⟨1, 4, none⟩]]).pos,
      po'.id = 2 ∧ po'.tenantId = 1 ∧
      (po'.status = .received ∨ po'.status = .partiallyReceived) ∧
      (po'.status = .received ↔
        ∀ item ∈ po'.items,
          item.quantityReceived = item.quantityOrdered) ∧
      (po'.status = .partiallyReceived →
        ∃ item ∈ po'.items, 1 ≤ item.quantityReceived) :=
  C5_po_receive_status (runOps [Op.createProduct 1 "P",
      Op.createVariant 1 0 "A" 10 0 5 2,
      Op.createPurchaseOrder 1 9 3 [⟨1, 0, 4, 2⟩] "PO-1" "",
      Op.updatePOStatus 1 2 .sent, Op.updatePOStatus 1 2 .confirmed])
    1 9 2 [⟨1, 4, none⟩]
    (runOps [Op.createProduct 1 "P",
      Op.createVariant 1 0 "A" 10 0 5 2,
      Op.createPurchaseOrder 1 9 3 [⟨1, 0, 4, 2⟩] "PO-1" "",
      Op.updatePOStatus 1 2 .sent, Op.updatePOStatus 1 2 .confirmed,
      Op.receivePurchaseOrder 1 9 2 [⟨1, 4, none⟩]])
    (by decide) (by rfl)

theorem createOrder_ok_shape {db : DB} {tid uid : Nat}
    {items : List OrderReqItem}
    {orderNumber customerName customerEmail notes : String}
    {db' : DB} {order : Order}
    (h : createOrder db tid uid items orderNumber customerName
      customerEmail notes = .ok (db', order)) :
    ∃ vs₂ ois₂ ms₂,
      processOrderItems tid uid db.products items db.variants =
        .ok (vs₂, ois₂, ms₂) ∧
      order.items = ois₂ ∧ order.id = db.nextId ∧
      order.tenantId = tid ∧ order.status = .pending ∧
      order.orderNumber = orderNumber ∧
      db'.variants = vs₂ ∧ db'.orders = db.orders ++ [order] ∧
      db'.movements = db.movements ++ ms₂.map (fun m =>
        { m with reference := "Order " ++ orderNumber,
                 referenceId := some order.id }) ∧
      db'.nextId = db.nextId + 1 ∧ db'.products = db.products ∧
      db'.pos = db.pos ∧ db'.initials = db.initials := by
  simp only [createOrder] at h
  split at h
  · simp at h
  · split at h
    · simp at h
    · rename_i vs₂ ois₂ ms₂ hpoi
      simp only [Except.ok.injEq, Prod.mk.injEq] at h
      obtain ⟨rfl, rfl⟩ := h
      exact ⟨vs₂, ois₂, ms₂, hpoi, rfl, rfl, rfl, rfl, rfl, rfl, rfl, rfl,
        rfl, rfl, rfl, rfl⟩

theorem adjustStock_ok_shape {db : DB} {tid uid vid : Nat} {q : Int}
    {ty : MovementType} {notes : String} {db' : DB} {v : Variant}
    {m : StockMovement}
    (h : adjustStock db tid uid vid q ty notes = .ok (db', v, m)) :
    db'.movements = db.movements ++ [m] ∧ m.quantity = q ∧
    m.newStock = m.previousStock + m.quantity ∧ m.type = ty ∧
    m.variantId = v.id ∧ m.newStock = v.stock ∧
    db'.orders = db.orders ∧ db'.pos = db.pos := by
  simp only [adjustStock] at h
  split at h
  · simp at h
  · split at h
    · simp at h
    · rename_i variant hr1
      simp only [Except.ok.injEq, Prod.mk.injEq] at h
      obtain ⟨rfl, rfl, rfl⟩ := h
      refine ⟨rfl, rfl, ?_, rfl, rfl, rfl, rfl, rfl⟩
      dsimp
      ring

theorem cancelOrder_ok_shape {db : DB} {tid uid oid : Nat} {reason : String}
    {db' : DB} (h : cancelOrder db tid uid oid reason = .ok db') :
    ∃ o, db.orders.find? (fun x => x.id == oid && x.tenantId == tid) =
      some o ∧
    o.status ≠ .cancelled ∧ o.status ≠ .shipped ∧ o.status ≠ .delivered ∧
    db' = { db with
            variants := (cancelRestoreItems tid uid o.orderNumber o.id
              reason o.items db.variants).1
            movements := db.movements ++ (cancelRestoreItems tid uid
              o.orderNumber o.id reason o.items db.variants).2
            orders := db.orders.map (fun x =>
              if x.id == oid && x.tenantId == tid then
                { x with status := .cancelled, hasCancelledAt := true,
                         cancelReason := reason }
              else x) } := by
  simp only [cancelOrder] at h
  split at h
  · simp at h
  · rename_i o hfind
    split at h
    · simp at h
    · rename_i h1
      split at h
      · simp at h
      · rename_i h2
        injection h with h
        exact ⟨o, hfind, h1, fun hs => h2 (Or.inl hs),
          fun hs => h2 (Or.inr hs), h.symm⟩

theorem applyOp_movements_append (db : DB) (op : Op) :
    ∃ ms, (applyOp db op).movements = db.movements ++ ms := by
  cases op with
  | createProduct tid name =>
    exact ⟨[], by simp [applyOp, createProduct]⟩
  | createVariant tid pid sku price costPrice stock lst =>
    simp only [applyOp]
    cases hc : createVariant db tid pid sku price costPrice stock lst with
    | error e => exact ⟨[], by simp⟩
    | ok pr =>
      obtain ⟨db₂, w⟩ := pr
      simp only [createVariant] at hc
      split at hc
      · simp at hc
      · split at hc
        · simp at hc
        · simp only [Except.ok.injEq, Prod.mk.injEq] at hc
          obtain ⟨rfl, rfl⟩ := hc
          exact ⟨[], by simp⟩
  | deleteVariant tid vid =>
    simp only [applyOp]
    cases hc : deleteVariant db tid vid with
    | error e => exact ⟨[], by simp⟩
    | ok db₂ =>
      simp only [deleteVariant] at hc
      split at hc
      · simp at hc
      · injection hc with hc
        subst hc
        exact ⟨[], by simp⟩
  | deleteProduct tid pid =>
    simp only [applyOp]
    cases hc : deleteProduct db tid pid with
    | error e => exact ⟨[], by simp⟩
    | ok db₂ =>
      simp only [deleteProduct] at hc
      split at hc
      · simp at hc
      · injection hc with hc
        subst hc
        exact ⟨[], by simp⟩
  | createOrder tid uid items n cn ce notes =>
    simp only [applyOp]
    cases hc : createOrder db tid uid items n cn ce notes with
    | error e => exact ⟨[], by simp⟩
    | ok pr =>
      obtain ⟨db₂, order⟩ := pr
      obtain ⟨vs₂, ois₂, ms₂, -, -, -, -, -, -, -, -, hmov, -, -, -, -⟩ :=
        createOrder_ok_shape hc
      exact ⟨_, hmov⟩
  | updateOrderStatus tid oid s =>
    simp only [applyOp]
    cases hc : updateOrderStatus db tid oid s with
    | error e => exact ⟨[], by simp⟩
    | ok db₂ =>
      simp only [updateOrderStatus] at hc
      split at hc
      · simp at hc
      · split at hc
        · simp at hc
        · split at hc
          · simp at hc
          · split at hc
            · simp at hc
            · injection hc with hc
              subst hc
              exact ⟨[], by simp⟩
  | cancelOrder tid uid oid reason =>
    simp only [applyOp]
    cases hc : cancelOrder db tid uid oid reason with
    | error e => exact ⟨[], by simp⟩
    | ok db₂ =>
      obtain ⟨o, -, -, -, -, hdb⟩ := cancelOrder_ok_shape hc
      subst hdb
      exact ⟨_, rfl⟩
  | adjustStock tid uid vid q ty notes =>
    simp only [applyOp]
    cases hc : adjustStock db tid uid vid q ty notes with
    | error e => exact ⟨[], by simp⟩
    | ok pr =>
      obtain ⟨db₂, v, m⟩ := pr
      obtain ⟨hmov, -⟩ := adjustStock_ok_shape hc
      exact ⟨[m], hmov⟩
  | createPurchaseOrder tid uid supplierId items poNumber notes =>
    simp only [applyOp]
    cases hc : createPurchaseOrder db tid uid supplierId items
        poNumber notes with
    | error e => exact ⟨[], by simp⟩
    | ok pr =>
      obtain ⟨db₂, po⟩ := pr
      simp only [createPurchaseOrder] at hc
      split at hc
      · simp at hc
      · simp only [Except.ok.injEq, Prod.mk.injEq] at hc
        obtain ⟨rfl, rfl⟩ := hc
        exact ⟨[], by simp⟩
  | updatePOStatus tid poid s =>
    simp only [applyOp]
    cases hc : updatePOStatus db tid poid s with
    | error e => exact ⟨[], by simp⟩
    | ok db₂ =>
      simp only [updatePOStatus] at hc
      split at hc
      · simp at hc
      · split at hc
        · simp at hc
        · split at hc
          · injection hc with hc
            subst hc
            exact ⟨[], by simp⟩
          · simp at hc
  | receivePurchaseOrder tid uid poid recvs =>
    simp only [applyOp]
    cases hc : receivePurchaseOrder db tid uid poid recvs with
    | error e => exact ⟨[], by simp⟩
    | ok db₂ =>
      obtain ⟨po, items₂, vs₂, ms₂, -, -, -, hdb⟩ :=
        receivePurchaseOrder_ok_shape hc
      subst hdb
      exact ⟨ms₂, rfl⟩

/-- C8: in every reachable state each Movement satisfies
`newStock = previousStock + quantity` and replaying each variant's ledger
from its recorded initial quantity reproduces its current stock; no
operation updates or deletes an existing Movement (the movement log only
ever grows by appending); a successful manual adjustment appends exactly
one movement carrying the signed delta, with `newStock` the unit's
post-update quantity; and a successful order creation appends exactly one
sale movement per line with delta minus the line quantity. -/
theorem C8_movement_integrity :
    (∀ ops : List Op,
      (∀ m ∈ (runOps ops).movements,
        m.newStock = m.previousStock + m.quantity) ∧
      (∀ v ∈ (runOps ops).variants, ∃ init,
        initFor (runOps ops) v.id = some init ∧
        v.stock = init + sumFor v.id (runOps ops).movements)) ∧
    (∀ (db : DB) (op : Op), ∃ ms,
      (applyOp db op).movements = db.movements ++ ms) ∧
    (∀ (db : DB) (tid uid vid : Nat) (q : Int) (ty : MovementType)
        (notes : String) (db' : DB) (v : Variant) (m : StockMovement),
      adjustStock db tid uid vid q ty notes = .ok (db', v, m) →
      db'.movements = db.movements ++ [m] ∧ m.quantity = q ∧
      m.newStock = m.previousStock + m.quantity ∧ m.newStock = v.stock) ∧
    (∀ (db : DB) (tid uid : Nat) (items : List OrderReqItem)
        (orderNumber customerName customerEmail notes : String)
        (db' : DB) (order : Order),
      WF db →
      createOrder db tid uid items orderNumber customerName customerEmail
        notes = .ok (db', order) →
      ∃ ms, db'.movements = db.movements ++ ms ∧
        ms.length = items.length ∧
        ms.map (fun m => (m.variantId, m.quantity)) =
          items.map (fun i => (i.variantId, -i.quantity))) := by
  refine ⟨?_, applyOp_movements_append, ?_, ?_⟩
  · intro ops
    have hwf := wf_runOps ops
    refine ⟨hwf.2.2.2.2.2.2.2.2.2.2.1, ?_⟩
    intro v hv
    have hF := hwf.2.2.2.2.2.2.2.2.2.2.2 v hv
    exact ⟨_, hF, by omega⟩
  · intro db tid uid vid q ty notes db' v m h
    obtain ⟨h1, h2, h3, -, -, h6, -, -⟩ := adjustStock_ok_shape h
    exact ⟨h1, h2, h3, h6⟩
  · intro db tid uid items n cn ce notes db' order hwf h
    obtain ⟨vs₂, ois₂, ms₂, hpoi, -, -, -, -, -, -, -, hmov, -, -, -, -⟩ :=
      createOrder_ok_shape h
    obtain ⟨-, -, -, -, hms⟩ := processOrderItems_ok hwf.1 hpoi
    refine ⟨_, hmov, ?_, ?_⟩
    · have hlen : ms₂.length = items.length := by
        have := congrArg List.length hms
        simpa using this
      simpa using hlen
    · rw [List.map_map]
      exact hms

theorem C8_movement_integrity_witness :
    ((∀ m ∈ (runOps [Op.createProduct 1 "P",
        Op.createVariant 1 0 "A" 10 0 5 2,
        Op.adjustStock 1 9 1 (-2) .adjustment ""]).movements,
      m.newStock = m.previousStock + m.quantity) ∧
     (∀ v ∈ (runOps [Op.createProduct 1 "P",
        Op.createVariant 1 0 "A" 10 0 5 2,
        Op.adjustStock 1 9 1 (-2) .adjustment ""]).variants, ∃ init,
      initFor (runOps [Op.createProduct 1 "P",
        Op.createVariant 1 0 "A" 10 0 5 2,
        Op.adjustStock 1 9 1 (-2) .adjustment ""]) v.id = some init ∧
      v.stock = init + sumFor v.id (runOps [Op.createProduct 1 "P",
        Op.createVariant 1 0 "A" 10 0 5 2,
        Op.adjustStock 1 9 1 (-2) .adjustment ""]).movements)) ∧
    ((runOps [Op.createProduct 1 "P", Op.createVariant 1 0 "A" 10 0 5 2,
        Op.adjustStock 1 9 1 (-2) .adjustment ""]).movements =
      (runOps [Op.createProduct 1 "P",
        Op.createVariant 1 0 "A" 10 0 5 2]).movements ++
        [⟨1, 1, 0, .adjustment, -2, 5, 3, "", none, "", 9⟩] ∧
      (⟨1, 1, 0, .adjustment, -2, 5, 3, "", none, "", 9⟩ :
        StockMovement).quantity = -2 ∧
      (⟨1, 1, 0, .adjustment, -2, 5, 3, "", none, "", 9⟩ :
        StockMovement).newStock =
        (⟨1, 1, 0, .adjustment, -2, 5, 3, "", none, "", 9⟩ :
          StockMovement).previousStock +
        (⟨1, 1, 0, .adjustment, -2, 5, 3, "", none, "", 9⟩ :
          StockMovement).quantity ∧
      (⟨1, 1, 0, .adjustment, -2, 5, 3, "", none, "", 9⟩ :
        StockMovement).newStock =
        (⟨1, 1, 0, "A", 10, 0, 3, 2, true⟩ : Variant).stock) ∧
    (∃ ms, (runOps [Op.createProduct 1 "P",
        Op.createVariant 1 0 "A" 10 0 5 2,
        Op.createOrder 1 9 [⟨1, 2⟩] "N" "C" "E" ""]).movements =
      (runOps [Op.createProduct 1 "P",
        Op.createVariant 1 0 "A" 10 0 5 2]).movements ++ ms ∧
      ms.length = ([(⟨1, 2⟩ : OrderReqItem)]).length ∧
      ms.map (fun m => (m.variantId, m.quantity)) =
        ([(⟨1, 2⟩ : OrderReqItem)]).map
          (fun i => (i.variantId, -i.quantity))) :=
  ⟨C8_movement_integrity.1 [Op.createProduct 1 "P",
      Op.createVariant 1 0 "A" 10 0 5 2,
      Op.adjustStock 1 9 1 (-2) .adjustment ""],
   C8_movement_integrity.2.2.1
      (runOps [Op.createProduct 1 "P", Op.createVariant 1 0 "A" 10 0 5 2])
      1 9 1 (-2) .adjustment ""
      (runOps [Op.createProduct 1 "P", Op.createVariant 1 0 "A" 10 0 5 2,
        Op.adjustStock 1 9 1 (-2) .adjustment ""])
      ⟨1, 1, 0, "A", 10, 0, 3, 2, true⟩
      ⟨1, 1, 0, .adjustment, -2, 5, 3, "", none, "", 9⟩ (by rfl),
   C8_movement_integrity.2.2.2
      (runOps [Op.createProduct 1 "P", Op.createVariant 1 0 "A" 10 0 5 2])
      1 9 [⟨1, 2⟩] "N" "C" "E" ""
      (runOps [Op.createProduct 1 "P", Op.createVariant 1 0 "A" 10 0 5 2,
        Op.createOrder 1 9 [⟨1, 2⟩] "N" "C" "E" ""])
      ⟨2, 1, "N", .pending, [⟨1, 0, "P", "A", 2, 10, 20⟩], 20, "C", "E",
        "", 9, false, ""⟩
      (by decide) (by rfl)⟩

theorem cancelOrder_cases (db : DB) (tid uid oid : Nat) (reason : String) :
    (db.orders.find? (fun o => o.id == oid && o.tenantId == tid) = none ∧
      cancelOrder db tid uid oid reason = .error .orderNotFound) ∨
    ∃ o, db.orders.find? (fun o => o.id == oid && o.tenantId == tid) =
        some o ∧
      ((o.status = .cancelled ∧
        cancelOrder db tid uid oid reason = .error .alreadyCancelled) ∨
       (o.status ≠ .cancelled ∧
        (o.status = .shipped ∨ o.status = .delivered) ∧
        cancelOrder db tid uid oid reason =
          .error .cannotCancelShippedDelivered) ∨
       (o.status ≠ .cancelled ∧ o.status ≠ .shipped ∧
        o.status ≠ .delivered ∧
        ∃ db', cancelOrder db tid uid oid reason = .ok db')) := by
  cases hfind : db.orders.find? (fun o => o.id == oid && o.tenantId == tid)
    with
  | none =>
    refine Or.inl ⟨rfl, ?_⟩
    simp only [cancelOrder, hfind]
  | some o =>
    refine Or.inr ⟨o, rfl, ?_⟩
    by_cases h1 : o.status = .cancelled
    · refine Or.inl ⟨h1, ?_⟩
      simp only [cancelOrder, hfind, if_pos h1]
    · by_cases h2 : o.status = .shipped ∨ o.status = .delivered
      · refine Or.inr (Or.inl ⟨h1, h2, ?_⟩)
        simp only [cancelOrder, hfind, if_neg h1, if_pos h2]
      · refine Or.inr (Or.inr ⟨h1, fun hs => h2 (Or.inl hs),
          fun hs => h2 (Or.inr hs), ?_⟩)
        have hres : cancelOrder db tid uid oid reason = .ok { db with
            variants := (cancelRestoreItems tid uid o.orderNumber o.id
              reason o.items db.variants).1
            movements := db.movements ++ (cancelRestoreItems tid uid
              o.orderNumber o.id reason o.items db.variants).2
            orders := db.orders.map (fun x =>
              if x.id == oid && x.tenantId == tid then
                { x with status := .cancelled, hasCancelledAt := true,
                         cancelReason := reason }
              else x) } := by
          simp only [cancelOrder, hfind, if_neg h1, if_neg h2]
        exact ⟨_, hres⟩

theorem cancelOrder_success_spec {db : DB} {tid uid oid : Nat}
    {reason : String} {db' : DB} (hwf : WF db)
    (h : cancelOrder db tid uid oid reason = .ok db') :
    ∃ o, db.orders.find? (fun x => x.id == oid && x.tenantId == tid) =
        some o ∧
      ∃ ms, db'.movements = db.movements ++ ms ∧
        StockEvolve ms db.variants db'.variants ∧
        (∀ m ∈ ms, m.type = .ret ∧
          m.newStock = m.previousStock + m.quantity ∧
          m.reference = "Cancelled Order " ++ o.orderNumber ∧
          ∃ item ∈ o.items, m.variantId = item.variantId ∧
            m.quantity = item.quantity) ∧
        ((∀ item ∈ o.items, ∃ v ∈ db.variants,
            v.id = item.variantId ∧ v.tenantId = tid) →
          ms.map (fun m => (m.variantId, m.quantity)) =
            o.items.map (fun i => (i.variantId, i.quantity))) ∧
        ∃ o' ∈ db'.orders, o'.id = o.id ∧ o'.status = .cancelled ∧
          o'.hasCancelledAt = true ∧ o'.cancelReason = reason := by
  obtain ⟨o, hfind, h1, h2, h3, hdb⟩ := cancelOrder_ok_shape h
  subst hdb
  obtain ⟨hev, hnn, hmv, hcor⟩ := cancelRestoreItems_spec hwf.1
    (Prod.mk.eta (p := cancelRestoreItems tid uid o.orderNumber o.id
      reason o.items db.variants)).symm
  refine ⟨o, hfind, _, rfl, hev, ?_, hcor, ?_⟩
  · intro m hm
    obtain ⟨hc1, hc2, hc3, -, it, hit, h5, h6⟩ := hmv m hm
    exact ⟨hc2, hc1, hc3, it, hit, h5, h6⟩
  · refine ⟨_, List.mem_map_of_mem _ (List.mem_of_find?_eq_some hfind), ?_⟩
    have hc := List.find?_some hfind
    simp [hc]

theorem create_cancel_roundtrip {db : DB} {tid uid vid : Nat} {Q : Int}
    {n cn ce notes reason : String} {db₁ db₂ : DB} {order : Order}
    {v : Variant}
    (hwf : WF db)
    (hv : lookupVariant db vid tid = some v)
    (hco : createOrder db tid uid [⟨vid, Q⟩] n cn ce notes =
      .ok (db₁, order))
    (hca : cancelOrder db₁ tid uid order.id reason = .ok db₂) :
    lookupVariant db₂ vid tid = some v ∧
    ∃ m₁ m₂, db₂.movements = db.movements ++ [m₁, m₂] ∧
      m₁.type = .sale ∧ m₁.variantId = vid ∧ m₁.quantity = -Q ∧
      m₂.type = .ret ∧ m₂.variantId = vid ∧ m₂.quantity = Q ∧
      m₁.quantity + m₂.quantity = 0 := by
  rw [lookupVariant] at hv
  have hvmem := List.mem_of_find?_eq_some hv
  have hvc := List.find?_some hv
  simp only [Bool.and_eq_true, beq_iff_eq] at hvc
  obtain ⟨vs₂, ois₂, ms₂, hpoi, hoi, hoid, hotid, hostat, hon, hvar1,
    hord1, hmov1, hnx1, -, -, -⟩ := createOrder_ok_shape hco
  obtain ⟨hev₁, hnn₁, hmv₁, hois, hms⟩ := processOrderItems_ok hwf.1 hpoi
  obtain ⟨m₁0, rfl⟩ : ∃ m, ms₂ = [m] := by
    cases ms₂ with
    | nil => simp at hms
    | cons a t =>
      cases t with
      | nil => exact ⟨a, rfl⟩
      | cons b t' => simp at hms
  have hm₁ : m₁0.variantId = vid ∧ m₁0.quantity = -Q := by
    simpa using hms
  obtain ⟨-, hm₁ty, -⟩ := hmv₁ m₁0 (List.mem_singleton.mpr rfl)
  obtain ⟨oi, rfl⟩ : ∃ x, ois₂ = [x] := by
    cases ois₂ with
    | nil => simp at hois
    | cons a t =>
      cases t with
      | nil => exact ⟨a, rfl⟩
      | cons b t' => simp at hois
  have hoiv : oi.variantId = vid ∧ oi.quantity = Q := by
    simpa using hois
  have hfind₁ : db₁.orders.find?
      (fun x => x.id == order.id && x.tenantId == tid) = some order := by
    rw [hord1, List.find?_append]
    have hnone : db.orders.find?
        (fun x => x.id == order.id && x.tenantId == tid) = none := by
      rw [List.find?_eq_none]
      intro x hx
      have hlt := hwf.2.2.1 x hx
      simp only [Bool.and_eq_true, beq_iff_eq, not_and]
      intro hxe
      rw [hoid] at hxe
      omega
    rw [hnone]
    simp only [Option.none_or]
    apply List.find?_cons_of_pos
    simp [hotid]
  obtain ⟨o, hfindS, -, -, -, hdb₂⟩ := cancelOrder_ok_shape hca
  have hoeq : o = order := by
    have := hfindS.symm.trans hfind₁
    exact Option.some.inj this
  subst hoeq
  subst hdb₂
  have hwf₁ : WF db₁ := wf_createOrder hwf hco
  obtain ⟨hev₂, hnn₂, hmv₂, hcor₂⟩ := cancelRestoreItems_spec hwf₁.1
    (Prod.mk.eta (p := cancelRestoreItems tid uid o.orderNumber o.id
      reason o.items db₁.variants)).symm
  have hall : ∀ item ∈ o.items, ∃ w ∈ db₁.variants,
      w.id = item.variantId ∧ w.tenantId = tid := by
    intro item hitem
    rw [hoi, List.mem_singleton] at hitem
    subst hitem
    refine ⟨updStock (sumFor v.id [m₁0]) v, ?_, ?_, ?_⟩
    · rw [hvar1]
      exact stockEvolve_mem_fwd hev₁ hvmem
    · rw [updStock_id, hvc.1, hoiv.1]
    · exact hvc.2
  have hcor := hcor₂ hall
  have hcor' : ((cancelRestoreItems tid uid o.orderNumber o.id
      reason o.items db₁.variants).2).map
        (fun m => (m.variantId, m.quantity)) = [(vid, Q)] := by
    rw [hcor, hoi]
    simp [hoiv.1, hoiv.2]
  obtain ⟨m₂0, hp2⟩ : ∃ m, (cancelRestoreItems tid uid o.orderNumber o.id
      reason o.items db₁.variants).2 = [m] := by
    cases hc2 : (cancelRestoreItems tid uid o.orderNumber o.id
        reason o.items db₁.variants).2 with
    | nil => rw [hc2] at hcor'; simp at hcor'
    | cons a t =>
      cases t with
      | nil => exact ⟨a, rfl⟩
      | cons b t' => rw [hc2] at hcor'; simp at hcor'
  have hm₂ : m₂0.variantId = vid ∧ m₂0.quantity = Q := by
    rw [hp2] at hcor'
    simpa using hcor'
  obtain ⟨-, hm₂ty, -, -, -, -, -, -⟩ := hmv₂ m₂0 (hp2 ▸ List.mem_singleton.mpr rfl)
  constructor
  · rw [lookupVariant]
    show ((cancelRestoreItems tid uid o.orderNumber o.id reason o.items
      db₁.variants).1).find? (fun w => w.id == vid && w.tenantId == tid) =
      some v
    have hev₂' : StockEvolve (cancelRestoreItems tid uid o.orderNumber o.id
        reason o.items db₁.variants).2 vs₂
        (cancelRestoreItems tid uid o.orderNumber o.id reason o.items
          db₁.variants).1 := by
      rw [← hvar1]
      exact hev₂
    have hev₁' := stockEvolve_map_ref ("Order " ++ n) (some o.id) hev₁
    have hevAll := stockEvolve_trans hev₁' hev₂'
    rw [lookup_evolve hevAll vid tid, hv]
    simp only [Option.map_some']
    rw [hp2]
    have hsum : sumFor v.id ([m₁0].map (fun m =>
        { m with reference := "Order " ++ n,
                 referenceId := some o.id }) ++ [m₂0]) = 0 := by
      rw [sumFor_append, sumFor_map_ref]
      rw [sumFor_single _ _ (by rw [hm₁.1, hvc.1]),
        sumFor_single _ _ (by rw [hm₂.1, hvc.1])]
      rw [hm₁.2, hm₂.2]
      ring
    rw [hsum, updStock_zero]
  · refine ⟨{ m₁0 with reference := "Order " ++ n, referenceId := some o.id }, m₂0, ?_, ?_, ?_, ?_, hm₂ty, hm₂.1, hm₂.2, ?_⟩
    · show db₁.movements ++ (cancelRestoreItems tid uid o.orderNumber o.id
        reason o.items db₁.variants).2 = _
      rw [hmov1, hp2]
      simp
    · exact hm₁ty
    · exact hm₁.1
    · exact hm₁.2
    · dsimp
      rw [hm₁.2, hm₂.2]
      ring

/-- C4: order cancellation fails exactly when the order is missing for
the tenant or its status is cancelled, shipped or delivered; on success
the movement log grows by one return movement per line whose stock unit
exists (carrying the line quantity and referencing the cancelled order),
the variants collection evolves by exactly those movement deltas, and the
order becomes cancelled with the given reason; hence creating a
single-line order of quantity Q against a unit and cancelling it restores
the unit exactly, the sale movement of `-Q` and the return movement of
`+Q` netting to zero. -/
theorem C4_cancel_roundtrip :
    (∀ (db : DB) (tid uid oid : Nat) (reason : String),
      (db.orders.find? (fun o => o.id == oid && o.tenantId == tid) =
          none ∧
        cancelOrder db tid uid oid reason = .error .orderNotFound) ∨
      ∃ o, db.orders.find? (fun o => o.id == oid && o.tenantId == tid) =
          some o ∧
        ((o.status = .cancelled ∧
          cancelOrder db tid uid oid reason = .error .alreadyCancelled) ∨
         (o.status ≠ .cancelled ∧
          (o.status = .shipped ∨ o.status = .delivered) ∧
          cancelOrder db tid uid oid reason =
            .error .cannotCancelShippedDelivered) ∨
         (o.status ≠ .cancelled ∧ o.status ≠ .shipped ∧
          o.status ≠ .delivered ∧
          ∃ db', cancelOrder db tid uid oid reason = .ok db'))) ∧
    (∀ (db : DB) (tid uid oid : Nat) (reason : String) (db' : DB),
      WF db → cancelOrder db tid uid oid reason = .ok db' →
      ∃ o, db.orders.find? (fun x => x.id == oid && x.tenantId == tid) =
          some o ∧
        ∃ ms, db'.movements = db.movements ++ ms ∧
          StockEvolve ms db.variants db'.variants ∧
          (∀ m ∈ ms, m.type = .ret ∧
            m.newStock = m.previousStock + m.quantity ∧
            m.reference = "Cancelled Order " ++ o.orderNumber ∧
            ∃ item ∈ o.items, m.variantId = item.variantId ∧
              m.quantity = item.quantity) ∧
          ((∀ item ∈ o.items, ∃ v ∈ db.variants,
              v.id = item.variantId ∧ v.tenantId = tid) →
            ms.map (fun m => (m.variantId, m.quantity)) =
              o.items.map (fun i => (i.variantId, i.quantity))) ∧
          ∃ o' ∈ db'.orders, o'.id = o.id ∧ o'.status = .cancelled ∧
            o'.hasCancelledAt = true ∧ o'.cancelReason = reason) ∧
    (∀ (db : DB) (tid uid vid : Nat) (Q : Int)
        (n cn ce notes reason : String) (db₁ db₂ : DB) (order : Order)
        (v : Variant),
      WF db →
      lookupVariant db vid tid = some v →
      createOrder db tid uid [⟨vid, Q⟩] n cn ce notes = .ok (db₁, order) →
      cancelOrder db₁ tid uid order.id reason = .ok db₂ →
      lookupVariant db₂ vid tid = some v ∧
      ∃ m₁ m₂, db₂.movements = db.movements ++ [m₁, m₂] ∧
        m₁.type = .sale ∧ m₁.variantId = vid ∧ m₁.quantity = -Q ∧
        m₂.type = .ret ∧ m₂.variantId = vid ∧ m₂.quantity = Q ∧
        m₁.quantity + m₂.quantity = 0) :=
  ⟨cancelOrder_cases,
   fun _ _ _ _ _ _ hwf h => cancelOrder_success_spec hwf h,
   fun _ _ _ _ _ _ _ _ _ _ _ _ _ _ hwf hv hco hca =>
     create_cancel_roundtrip hwf hv hco hca⟩

theorem C4_cancel_roundtrip_witness :
    (((runOps ([] : List Op)).orders.find?
        (fun o => o.id == 5 && o.tenantId == 1) = none ∧
      cancelOrder (runOps ([] : List Op)) 1 9 5 "r" =
        .error .orderNotFound) ∨
     ∃ o, (runOps ([] : List Op)).orders.find?
        (fun o => o.id == 5 && o.tenantId == 1) = some o ∧
      ((o.status = .cancelled ∧
        cancelOrder (runOps ([] : List Op)) 1 9 5 "r" =
          .error .alreadyCancelled) ∨
       (o.status ≠ .cancelled ∧
        (o.status = .shipped ∨ o.status = .delivered) ∧
        cancelOrder (runOps ([] : List Op)) 1 9 5 "r" =
          .error .cannotCancelShippedDelivered) ∨
       (o.status ≠ .cancelled ∧ o.status ≠ .shipped ∧
        o.status ≠ .delivered ∧
        ∃ db', cancelOrder (runOps ([] : List Op)) 1 9 5 "r" =
          .ok db'))) ∧
    (∃ o, (runOps [Op.createProduct 1 "P",
        Op.createVariant 1 0 "A" 10 0 5 2,
        Op.createOrder 1 9 [⟨1, 2⟩] "N" "C" "E" ""]).orders.find?
          (fun x => x.id == 2 && x.tenantId == 1) = some o ∧
      ∃ ms, (runOps [Op.createProduct 1 "P",
          Op.createVariant 1 0 "A" 10 0 5 2,
          Op.createOrder 1 9 [⟨1, 2⟩] "N" "C" "E" "",
          Op.cancelOrder 1 9 2 "no"]).movements =
        (runOps [Op.createProduct 1 "P",
          Op.createVariant 1 0 "A" 10 0 5 2,
          Op.createOrder 1 9 [⟨1, 2⟩] "N" "C" "E" ""]).movements ++ ms ∧
        StockEvolve ms (runOps [Op.createProduct 1 "P",
          Op.createVariant 1 0 "A" 10 0 5 2,
          Op.createOrder 1 9 [⟨1, 2⟩] "N" "C" "E" ""]).variants
          (runOps [Op.createProduct 1 "P",
            Op.createVariant 1 0 "A" 10 0 5 2,
            Op.createOrder 1 9 [⟨1, 2⟩] "N" "C" "E" "",
            Op.cancelOrder 1 9 2 "no"]).variants ∧
        (∀ m ∈ ms, m.type = .ret ∧
          m.newStock = m.previousStock + m.quantity ∧
          m.reference = "Cancelled Order " ++ o.orderNumber ∧
          ∃ item ∈ o.items, m.variantId = item.variantId ∧
            m.quantity = item.quantity) ∧
        ((∀ item ∈ o.items, ∃ v ∈ (runOps [Op.createProduct 1 "P",
            Op.createVariant 1 0 "A" 10 0 5 2,
            Op.createOrder 1 9 [⟨1, 2⟩] "N" "C" "E" ""]).variants,
            v.id = item.variantId ∧ v.tenantId = 1) →
          ms.map (fun m => (m.variantId, m.quantity)) =
            o.items.map (fun i => (i.variantId, i.quantity))) ∧
        ∃ o' ∈ (runOps [Op.createProduct 1 "P",
            Op.createVariant 1 0 "A" 10 0 5 2,
            Op.createOrder 1 9 [⟨1, 2⟩] "N" "C" "E" "",
            Op.cancelOrder 1 9 2 "no"]).orders,
          o'.id = o.id ∧ o'.status = .cancelled ∧
          o'.hasCancelledAt = true ∧ o'.cancelReason = "no") ∧
    (lookupVariant (runOps [Op.createProduct 1 "P",
        Op.createVariant 1 0 "A" 10 0 5 2,
        Op.createOrder 1 9 [⟨1, 2⟩] "N" "C" "E" "",
        Op.cancelOrder 1 9 2 "no"]) 1 1 =
      some ⟨1, 1, 0, "A", 10, 0, 5, 2, true⟩ ∧
     ∃ m₁ m₂, (runOps [Op.createProduct 1 "P",
        Op.createVariant 1 0 "A" 10 0 5 2,
        Op.createOrder 1 9 [⟨1, 2⟩] "N" "C" "E" "",
        Op.cancelOrder 1 9 2 "no"]).movements =
      (runOps [Op.createProduct 1 "P",
        Op.createVariant 1 0 "A" 10 0 5 2]).movements ++ [m₁, m₂] ∧
      m₁.type = .sale ∧ m₁.variantId = 1 ∧ m₁.quantity = -2 ∧
      m₂.type = .ret ∧ m₂.variantId = 1 ∧ m₂.quantity = 2 ∧
      m₁.quantity + m₂.quantity = 0) :=
  ⟨C4_cancel_roundtrip.1 (runOps ([] : List Op)) 1 9 5 "r",
   C4_cancel_roundtrip.2.1 (runOps [Op.createProduct 1 "P",
      Op.createVariant 1 0 "A" 10 0 5 2,
      Op.createOrder 1 9 [⟨1, 2⟩] "N" "C" "E" ""]) 1 9 2 "no"
    (runOps [Op.createProduct 1 "P", Op.createVariant 1 0 "A" 10 0 5 2,
      Op.createOrder 1 9 [⟨1, 2⟩] "N" "C" "E" "",
      Op.cancelOrder 1 9 2 "no"]) (by decide) (by rfl),
   C4_cancel_roundtrip.2.2 (runOps [Op.createProduct 1 "P",
      Op.createVariant 1 0 "A" 10 0 5 2]) 1 9 1 2 "N" "C" "E" "" "no"
    (runOps [Op.createProduct 1 "P", Op.createVariant 1 0 "A" 10 0 5 2,
      Op.createOrder 1 9 [⟨1, 2⟩] "N" "C" "E" ""])
    (runOps [Op.createProduct 1 "P", Op.createVariant 1 0 "A" 10 0 5 2,
      Op.createOrder 1 9 [⟨1, 2⟩] "N" "C" "E" "",
      Op.cancelOrder 1 9 2 "no"])
    ⟨2, 1, "N", .pending, [⟨1, 0, "P", "A", 2, 10, 20⟩], 20, "C", "E",
      "", 9, false, ""⟩
    ⟨1, 1, 0, "A", 10, 0, 5, 2, true⟩
    (by decide) (by rfl) (by rfl) (by rfl)⟩
